import Mathlib

/-!
Verification of the VRPTW route-construction core (`src/services/vrptwService.ts`).

The solver is embedded shallowly:
* JavaScript numbers that only undergo exact arithmetic on the inputs
  (demands, capacities, times, matrix entries) are modelled by `ℚ`;
  `Number.MAX_VALUE` is the exact rational value of that double.
* The Haversine helper `calculateDistance` uses transcendental functions, so it
  is modelled over `ℝ`; inside the solver the distance function is abstracted
  as a parameter `cd`, since the solver only stores its values.
* The non-null assertion `vehicles.find(...)!` and the array read
  `routes[bestRouteIndex]` are fallible, so the solver is `Option`-valued:
  `none` models the TypeError those would raise on a missing element.
* The stable `Array.prototype.sort` on the comparator
  `(a, b) => a.readyTime - b.readyTime` is modelled by the stable
  `List.insertionSort` on `a.readyTime ≤ b.readyTime`.
-/

set_option autoImplicit false

attribute [local semireducible] Rat.add Rat.sub Rat.mul Rat.inv

namespace VRPTW

/-- `Location` from `src/models/types.ts`. -/
structure Location where
  id : String
  name : String
  lat : ℚ
  lng : ℚ
  demand : ℚ
  readyTime : ℚ
  dueTime : ℚ
  serviceTime : ℚ
deriving DecidableEq

/-- `Vehicle` from `src/models/types.ts`. -/
structure Vehicle where
  id : String
  capacity : ℚ
  startLocation : Location
  endLocation : Location
  color : String
deriving DecidableEq

/-- `Route` from `src/models/types.ts`. -/
structure Route where
  vehicleId : String
  locations : List Location
  totalDistance : ℚ
  totalTime : ℚ
  feasible : Bool
  infeasibilityReason : String
deriving DecidableEq

/-- `VRPTWSolution` from `src/models/types.ts`. -/
structure VRPTWSolution where
  routes : List Route
  unassignedLocations : List Location
  totalDistance : ℚ
  totalTime : ℚ
  feasible : Bool
  infeasibilityReasons : List String
deriving DecidableEq

/-- The exact value of the IEEE-754 double `Number.MAX_VALUE`, that is,
`(2^53 - 1) * 2^971`, written as an integer literal so that kernel
reduction can evaluate comparisons against it. -/
def MAX_VALUE : ℚ := 179769313486231570814527423731704356798070567525844996598917476803157260780028538760589558632766878171540458953514382464234321326889464182768467546703537516986049910576551282076245490090389328944075868508455133942304583236903222948165808559332123348274797826204144723168738177180919299881250404026184124858368

/-- The three mutable best-candidate variables of the per-customer search:
`bestRouteIndex` (initially `-1`), `bestIncrease` (initially
`Number.MAX_VALUE`) and `bestPosition` (initially `-1`). -/
structure Best where
  routeIndex : ℤ
  increase : ℚ
  position : ℤ
deriving DecidableEq

/-- Initial value of the best-candidate variables. -/
def initBest : Best := ⟨-1, MAX_VALUE, -1⟩

/-- Sum of `cd` over consecutive pairs of a location sequence: the
`for` loop recomputing `route.totalDistance`. -/
def pathDistance (cd : ℚ → ℚ → ℚ → ℚ → ℚ) : List Location → ℚ
  | a :: b :: rest => cd a.lat a.lng b.lat b.lng + pathDistance cd (b :: rest)
  | _ => 0

/-- Matrix index of a location: its position (by id) in `[...customers, depot]`,
`none` for `findIndex = -1`. -/
def locIndex (customers : List Location) (depot : Location) (l : Location) : Option ℕ :=
  (customers ++ [depot]).findIdx? (fun x => x.id == l.id)

/-- Body of the inner position loop (lines 82–128 of the source): one
candidate insertion position `i` of one route, updating the best-candidate
state, the `assignmentPossible` flag and the route's rejection reason. -/
def posStep (depot : Location) (customers : List Location) (tm : ℕ → ℕ → ℚ)
    (c : Location) (locs : List Location) (routeTime : ℚ) (r : ℕ)
    (i : ℕ) (st : Best × Bool × String) : Best × Bool × String :=
  let prev := locs.getD i depot
  let next := locs.getD (i + 1) depot
  match locIndex customers depot prev, locIndex customers depot c, locIndex customers depot next with
  | some prevIndex, some customerIndex, some nextIndex =>
    let timeToCustomer := tm prevIndex customerIndex
    let timeFromCustomer := tm customerIndex nextIndex
    let increase := timeToCustomer + timeFromCustomer - tm prevIndex nextIndex
    let arrivalRaw := routeTime + timeToCustomer
    let arrivalTime := if arrivalRaw < c.readyTime then c.readyTime else arrivalRaw
    if arrivalTime > c.dueTime then
      (st.1, st.2.1, "No se puede llegar a tiempo a " ++ c.name)
    else
      let departureTime := arrivalTime + c.serviceTime
      let arrivalNextTime := departureTime + timeFromCustomer
      if next.id ≠ depot.id ∧ arrivalNextTime > next.dueTime then
        (st.1, st.2.1, "La inserción de " ++ c.name ++ " causaría retraso en siguiente cliente")
      else if increase < st.1.increase then
        (⟨(r : ℤ), increase, (i : ℤ) + 1⟩, true, st.2.2)
      else
        (st.1, true, st.2.2)
  | _, _, _ => st

/-- The inner position loop, iterated over the position indices. -/
def scanPos (depot : Location) (customers : List Location) (tm : ℕ → ℕ → ℚ)
    (c : Location) (locs : List Location) (routeTime : ℚ) (r : ℕ) :
    List ℕ → Best × Bool × String → Best × Bool × String
  | [], st => st
  | i :: is, st =>
      scanPos depot customers tm c locs routeTime r is
        (posStep depot customers tm c locs routeTime r i st)

/-- The outer route loop (lines 70–129): per route, the vehicle lookup
(`none` models the TypeError of `find(...)!` on a missing vehicle), the
capacity pre-check with its rejection reason, then the position scan.
Returns the routes with updated rejection reasons, the best candidate and
the `assignmentPossible` flag. -/
def scanRoutes (depot : Location) (customers : List Location) (tm : ℕ → ℕ → ℚ)
    (vehicles : List Vehicle) (c : Location) :
    List Route → ℕ → Best → Bool → Option (List Route × Best × Bool)
  | [], _, b, ap => some ([], b, ap)
  | route :: rest, r, b, ap =>
    match vehicles.find? (fun v => v.id == route.vehicleId) with
    | none => none
    | some vehicle =>
      if (route.locations.map (fun l => l.demand)).sum + c.demand > vehicle.capacity then
        (scanRoutes depot customers tm vehicles c rest (r + 1) b ap).map
          (fun res =>
            ({ route with infeasibilityReason := "Capacidad insuficiente para cliente " ++ c.name } :: res.1,
             res.2))
      else
        let res1 := scanPos depot customers tm c route.locations route.totalTime r
          (List.range route.locations.length) (b, ap, route.infeasibilityReason)
        (scanRoutes depot customers tm vehicles c rest (r + 1) res1.1 res1.2.1).map
          (fun res => ({ route with infeasibilityReason := res1.2.2 } :: res.1, res.2))

/-- The per-customer reason pushed to the solution's `infeasibilityReasons`. -/
def noAssignMsg (c : Location) : String :=
  "No se pudo asignar " ++ c.name ++ " debido a restricciones de tiempo o capacidad"

/-- The mutable state of the construction loop: routes, unassigned
customers and the solution-level reason list. -/
structure SolveState where
  routes : List Route
  unassigned : List Location
  reasons : List String
deriving DecidableEq

/-- One iteration of the per-customer loop (lines 63–152): search all routes
and positions, then either splice the customer into the best route (updating
its `totalTime` and recomputing its `totalDistance`) or push it to
`unassignedLocations`, conditionally logging a reason. -/
def assignCustomer (cd : ℚ → ℚ → ℚ → ℚ → ℚ) (depot : Location) (customers : List Location)
    (tm : ℕ → ℕ → ℚ) (vehicles : List Vehicle) (st : SolveState) (c : Location) :
    Option SolveState :=
  match scanRoutes depot customers tm vehicles c st.routes 0 initBest false with
  | none => none
  | some (routes1, best, assignmentPossible) =>
    if best.routeIndex ≠ -1 then
      match routes1[best.routeIndex.toNat]? with
      | none => none
      | some route =>
        let locs := List.insertIdx best.position.toNat c route.locations
        let route' := { route with
          locations := locs,
          totalTime := route.totalTime + best.increase,
          totalDistance := pathDistance cd locs }
        some { routes := routes1.set best.routeIndex.toNat route',
               unassigned := st.unassigned, reasons := st.reasons }
    else
      some { routes := routes1, unassigned := st.unassigned ++ [c],
             reasons := if assignmentPossible then st.reasons else st.reasons ++ [noAssignMsg c] }

/-- The per-customer loop over the sorted customer list. -/
def solveLoop (cd : ℚ → ℚ → ℚ → ℚ → ℚ) (depot : Location) (customers : List Location)
    (tm : ℕ → ℕ → ℚ) (vehicles : List Vehicle) :
    List Location → SolveState → Option SolveState
  | [], st => some st
  | c :: cs, st =>
    match assignCustomer cd depot customers tm vehicles st c with
    | none => none
    | some st' => solveLoop cd depot customers tm vehicles cs st'

/-- The initial route of one vehicle (lines 50–57). -/
def initRoutes (depot : Location) (vehicles : List Vehicle) : List Route :=
  vehicles.map (fun vehicle =>
    { vehicleId := vehicle.id, locations := [depot], totalDistance := 0,
      totalTime := 0, feasible := true, infeasibilityReason := "" })

/-- The depot-closing pass on one route (lines 155–167): if the route's last
location is not the depot (and the route left the depot), append the depot
and recompute `totalDistance`. -/
def closeRoute (cd : ℚ → ℚ → ℚ → ℚ → ℚ) (depot : Location) (route : Route) : Route :=
  if route.locations.length > 1 ∧
      (route.locations.getD (route.locations.length - 1) depot).id ≠ depot.id then
    { route with
      locations := route.locations ++ [depot],
      totalDistance := pathDistance cd (route.locations ++ [depot]) }
  else route

/-- `solveVRPTW` (lines 40–182): sort customers by `readyTime`, run the
greedy insertion loop, close every route at the depot and aggregate. -/
def solveVRPTW (cd : ℚ → ℚ → ℚ → ℚ → ℚ) (depot : Location) (customers : List Location)
    (vehicles : List Vehicle) (tm : ℕ → ℕ → ℚ) : Option VRPTWSolution :=
  let sortedCustomers := customers.insertionSort (fun a b => a.readyTime ≤ b.readyTime)
  match solveLoop cd depot customers tm vehicles sortedCustomers
      ⟨initRoutes depot vehicles, [], []⟩ with
  | none => none
  | some st =>
    let routes := st.routes.map (closeRoute cd depot)
    some
      { routes := routes,
        unassignedLocations := st.unassigned,
        totalDistance := (routes.map (fun r => r.totalDistance)).sum,
        totalTime := (routes.map (fun r => r.totalTime)).sum,
        feasible := st.unassigned.length == 0 && routes.all (fun r => r.feasible),
        infeasibilityReasons := st.reasons }

/-! ### Specification-side predicates

Restatements of the solver's feasibility checks as standalone decidable
predicates, used to state the claims. Each mirrors the corresponding
conditions of the source. -/

/-- The two time-window checks (direct and cascading) and the matrix-index
lookups for inserting customer `c` after position `i` of a route with
location sequence `locs` and accumulated time `routeTime`. -/
def slotOk (depot : Location) (customers : List Location) (tm : ℕ → ℕ → ℚ)
    (c : Location) (locs : List Location) (routeTime : ℚ) (i : ℕ) : Bool :=
  let prev := locs.getD i depot
  let next := locs.getD (i + 1) depot
  match locIndex customers depot prev, locIndex customers depot c, locIndex customers depot next with
  | some prevIndex, some customerIndex, some nextIndex =>
    let timeToCustomer := tm prevIndex customerIndex
    let timeFromCustomer := tm customerIndex nextIndex
    let arrivalRaw := routeTime + timeToCustomer
    let arrivalTime := if arrivalRaw < c.readyTime then c.readyTime else arrivalRaw
    decide (arrivalTime ≤ c.dueTime) &&
      (next.id == depot.id || decide (arrivalTime + c.serviceTime + timeFromCustomer ≤ next.dueTime))
  | _, _, _ => false

/-- The insertion cost `timeToCustomer + timeFromCustomer − timeMatrix[prev][next]`
of the slot after position `i` (junk value `0` when an index is missing,
in which case `slotOk` is `false`). -/
def slotIncrease (depot : Location) (customers : List Location) (tm : ℕ → ℕ → ℚ)
    (c : Location) (locs : List Location) (i : ℕ) : ℚ :=
  match locIndex customers depot (locs.getD i depot), locIndex customers depot c,
      locIndex customers depot (locs.getD (i + 1) depot) with
  | some prevIndex, some customerIndex, some nextIndex =>
    tm prevIndex customerIndex + tm customerIndex nextIndex - tm prevIndex nextIndex
  | _, _, _ => 0

/-- The capacity check of a route for customer `c`, against the first vehicle
whose id equals the route's `vehicleId` (`false` if there is none). -/
def capOk (vehicles : List Vehicle) (route : Route) (c : Location) : Bool :=
  match vehicles.find? (fun v => v.id == route.vehicleId) with
  | some vehicle => decide ((route.locations.map (fun l => l.demand)).sum + c.demand ≤ vehicle.capacity)
  | none => false

/-- All three feasibility checks of the insertion pass for customer `c` at
route index `r`, insertion slot after position `i`. -/
def insertionFeasible (depot : Location) (customers : List Location) (tm : ℕ → ℕ → ℚ)
    (vehicles : List Vehicle) (routes : List Route) (c : Location) (r i : ℕ) : Bool :=
  match routes[r]? with
  | some route =>
    capOk vehicles route c && decide (i < route.locations.length) &&
      slotOk depot customers tm c route.locations route.totalTime i
  | none => false

/-- The feasible slots of one route, in position order: entries
`(routeIndex, insertPosition, insertionCost)` with `insertPosition = i + 1`. -/
def routeSlots (depot : Location) (customers : List Location) (tm : ℕ → ℕ → ℚ)
    (c : Location) (locs : List Location) (routeTime : ℚ) (r : ℕ) (is : List ℕ) :
    List (ℕ × ℕ × ℚ) :=
  is.filterMap (fun i =>
    if slotOk depot customers tm c locs routeTime i then
      some (r, i + 1, slotIncrease depot customers tm c locs i)
    else none)

/-- All feasible slots of all routes for customer `c`, in iteration order
(routes in input order, positions in route order); routes failing the
capacity check contribute none. -/
def feasSlots (depot : Location) (customers : List Location) (tm : ℕ → ℕ → ℚ)
    (vehicles : List Vehicle) (c : Location) : List Route → ℕ → List (ℕ × ℕ × ℚ)
  | [], _ => []
  | route :: rest, r =>
    (if capOk vehicles route c then
      routeSlots depot customers tm c route.locations route.totalTime r
        (List.range route.locations.length)
    else []) ++ feasSlots depot customers tm vehicles c rest (r + 1)

/-- The strictly-less-than update of the best-candidate variables by one
feasible slot. -/
def updBest (b : Best) (s : ℕ × ℕ × ℚ) : Best :=
  if s.2.2 < b.increase then ⟨(s.1 : ℤ), s.2.2, (s.2.1 : ℤ)⟩ else b

/-- Folding the strictly-less-than update over a slot list. -/
def foldBest (b : Best) (l : List (ℕ × ℕ × ℚ)) : Best := l.foldl updBest b

/-- Forget a route's rejection-reason string (the only field the search
phase mutates). -/
def stripReason (route : Route) : Route := { route with infeasibilityReason := "" }

/-- Cumulative demand of a route's locations, the depot (identified by id)
excluded. -/
def demandExcl (depot : Location) (route : Route) : ℚ :=
  ((route.locations.filter (fun l => !(l.id == depot.id))).map (fun l => l.demand)).sum

/-! ### The distance/time model over `ℝ` -/

/-- The intermediate value `a` of the Haversine formula (line 8–10 of the
source). -/
noncomputable def haverA (lat1 lon1 lat2 lon2 : ℝ) : ℝ :=
  Real.sin ((lat2 - lat1) * Real.pi / 180 / 2) * Real.sin ((lat2 - lat1) * Real.pi / 180 / 2) +
    Real.cos (lat1 * Real.pi / 180) * Real.cos (lat2 * Real.pi / 180) *
      (Real.sin ((lon2 - lon1) * Real.pi / 180 / 2) * Real.sin ((lon2 - lon1) * Real.pi / 180 / 2))

/-- `Math.atan2`. -/
noncomputable def atan2 (y x : ℝ) : ℝ :=
  if 0 < x then Real.arctan (y / x)
  else if x < 0 then
    (if 0 ≤ y then Real.arctan (y / x) + Real.pi else Real.arctan (y / x) - Real.pi)
  else
    (if 0 < y then Real.pi / 2 else if y < 0 then -(Real.pi / 2) else 0)

/-- `calculateDistance` (lines 4–13): the Haversine great-circle distance
with Earth radius 6371 km. -/
noncomputable def calculateDistance (lat1 lon1 lat2 lon2 : ℝ) : ℝ :=
  6371 * (2 * atan2 (Real.sqrt (haverA lat1 lon1 lat2 lon2))
    (Real.sqrt (1 - haverA lat1 lon1 lat2 lon2)))

/-- `generateTimeMatrix` (lines 16–36): entry `(i, j)` is `0` on the
diagonal and otherwise `round(distance / 50 × 60)` minutes at 50 km/h. -/
noncomputable def generateTimeMatrix (locations : List Location) : List (List ℤ) :=
  locations.enum.map (fun p =>
    locations.enum.map (fun q =>
      if p.1 = q.1 then 0
      else round (calculateDistance (p.2.lat : ℝ) (p.2.lng : ℝ) (q.2.lat : ℝ) (q.2.lng : ℝ) / 50 * 60)))

/-! ### Characterization of the strictly-less-than best fold -/

/-- The best fold either keeps its starting value (all costs at least the
running minimum) or returns the first slot attaining the minimum cost:
strictly smaller than all earlier slots, no larger than any slot. -/
theorem foldBest_spec (b : Best) (l : List (ℕ × ℕ × ℚ)) :
    (foldBest b l = b ∧ ∀ s ∈ l, b.increase ≤ s.2.2) ∨
    (∃ l₁ s l₂, l = l₁ ++ s :: l₂ ∧
      foldBest b l = ⟨(s.1 : ℤ), s.2.2, (s.2.1 : ℤ)⟩ ∧
      s.2.2 < b.increase ∧ (∀ t ∈ l₁, s.2.2 < t.2.2) ∧ (∀ t ∈ l, s.2.2 ≤ t.2.2)) := by
  induction l generalizing b with
  | nil => exact Or.inl ⟨rfl, by simp⟩
  | cons hd tl ih =>
    by_cases h : hd.2.2 < b.increase
    · have hfold : foldBest b (hd :: tl) = foldBest ⟨(hd.1 : ℤ), hd.2.2, (hd.2.1 : ℤ)⟩ tl := by
        simp [foldBest, updBest, h]
      rcases ih ⟨(hd.1 : ℤ), hd.2.2, (hd.2.1 : ℤ)⟩ with ⟨heq, hall⟩ |
        ⟨l₁, s, l₂, hsplit, heq, hlt, hbef, hmin⟩
      · refine Or.inr ⟨[], hd, tl, rfl, by rw [hfold, heq], h, by simp, ?_⟩
        intro t ht
        rcases List.mem_cons.mp ht with rfl | ht
        · exact le_refl _
        · exact hall t ht
      · refine Or.inr ⟨hd :: l₁, s, l₂, by rw [hsplit, List.cons_append], by rw [hfold, heq],
          lt_trans hlt h, ?_, ?_⟩
        · intro t ht
          rcases List.mem_cons.mp ht with rfl | ht
          · exact hlt
          · exact hbef t ht
        · intro t ht
          rcases List.mem_cons.mp ht with rfl | ht
          · exact le_of_lt hlt
          · exact hmin t ht
    · have hfold : foldBest b (hd :: tl) = foldBest b tl := by
        simp [foldBest, updBest, h]
      rcases ih b with ⟨heq, hall⟩ | ⟨l₁, s, l₂, hsplit, heq, hlt, hbef, hmin⟩
      · refine Or.inl ⟨by rw [hfold, heq], ?_⟩
        intro t ht
        rcases List.mem_cons.mp ht with rfl | ht
        · exact le_of_not_lt h
        · exact hall t ht
      · refine Or.inr ⟨hd :: l₁, s, l₂, by rw [hsplit, List.cons_append], by rw [hfold, heq], hlt, ?_, ?_⟩
        · intro t ht
          rcases List.mem_cons.mp ht with rfl | ht
          · exact lt_of_lt_of_le hlt (le_of_not_lt h)
          · exact hbef t ht
        · intro t ht
          rcases List.mem_cons.mp ht with rfl | ht
          · exact le_trans (le_of_lt hlt) (le_of_not_lt h)
          · exact hmin t ht

/-- The best-candidate component of one position step is the
strictly-less-than update by the slot when it passes the checks. -/
theorem posStep_best (depot : Location) (customers : List Location) (tm : ℕ → ℕ → ℚ)
    (c : Location) (locs : List Location) (routeTime : ℚ) (r : ℕ)
    (i : ℕ) (st : Best × Bool × String) :
    (posStep depot customers tm c locs routeTime r i st).1 =
      (if slotOk depot customers tm c locs routeTime i then
        updBest st.1 (r, i + 1, slotIncrease depot customers tm c locs i)
      else st.1) := by
  unfold posStep slotOk slotIncrease updBest
  rcases h1 : locIndex customers depot (locs.getD i depot) with _ | prevIndex <;>
    rcases h2 : locIndex customers depot c with _ | customerIndex <;>
    rcases h3 : locIndex customers depot (locs.getD (i + 1) depot) with _ | nextIndex <;>
    simp only [h1, h2, h3] <;>
    try (solve | simp)
  by_cases hdue : (if routeTime + tm prevIndex customerIndex < c.readyTime then c.readyTime
      else routeTime + tm prevIndex customerIndex) ≤ c.dueTime
  · by_cases hnd : (locs[i + 1]?.getD depot).id = depot.id
    · simp [hnd, hdue, not_lt.mpr hdue, Nat.cast_add, Nat.cast_one]
      split <;> rfl
    · by_cases hcas : (if routeTime + tm prevIndex customerIndex < c.readyTime then c.readyTime
          else routeTime + tm prevIndex customerIndex) + c.serviceTime + tm customerIndex nextIndex ≤
          (locs[i + 1]?.getD depot).dueTime
      · simp [hnd, hdue, not_lt.mpr hdue, hcas, not_lt.mpr hcas, Nat.cast_add, Nat.cast_one]
        split <;> rfl
      · simp [hnd, hdue, not_lt.mpr hdue, hcas, not_le.mp hcas]
  · simp [hdue, not_le.mp hdue]

/-- The `assignmentPossible` component of one position step. -/
theorem posStep_ap (depot : Location) (customers : List Location) (tm : ℕ → ℕ → ℚ)
    (c : Location) (locs : List Location) (routeTime : ℚ) (r : ℕ)
    (i : ℕ) (st : Best × Bool × String) :
    (posStep depot customers tm c locs routeTime r i st).2.1 =
      (st.2.1 || slotOk depot customers tm c locs routeTime i) := by
  unfold posStep slotOk
  rcases h1 : locIndex customers depot (locs.getD i depot) with _ | prevIndex <;>
    rcases h2 : locIndex customers depot c with _ | customerIndex <;>
    rcases h3 : locIndex customers depot (locs.getD (i + 1) depot) with _ | nextIndex <;>
    simp only [h1, h2, h3] <;>
    try (solve | simp)
  by_cases hdue : (if routeTime + tm prevIndex customerIndex < c.readyTime then c.readyTime
      else routeTime + tm prevIndex customerIndex) ≤ c.dueTime
  · by_cases hnd : (locs[i + 1]?.getD depot).id = depot.id
    · simp [hnd, hdue, not_lt.mpr hdue]
      split <;> rfl
    · by_cases hcas : (if routeTime + tm prevIndex customerIndex < c.readyTime then c.readyTime
          else routeTime + tm prevIndex customerIndex) + c.serviceTime + tm customerIndex nextIndex ≤
          (locs[i + 1]?.getD depot).dueTime
      · simp [hnd, hdue, not_lt.mpr hdue, hcas, not_lt.mpr hcas]
        split <;> rfl
      · simp [hnd, hdue, not_lt.mpr hdue, hcas, not_le.mp hcas]
  · simp [hdue, not_le.mp hdue]

/-- The inner position loop computes the best fold over the route's feasible
slots and reports whether any slot was feasible. -/
theorem scanPos_spec (depot : Location) (customers : List Location) (tm : ℕ → ℕ → ℚ)
    (c : Location) (locs : List Location) (routeTime : ℚ) (r : ℕ) :
    ∀ (is : List ℕ) (st : Best × Bool × String),
      (scanPos depot customers tm c locs routeTime r is st).1 =
        foldBest st.1 (routeSlots depot customers tm c locs routeTime r is) ∧
      (scanPos depot customers tm c locs routeTime r is st).2.1 =
        (st.2.1 || !(routeSlots depot customers tm c locs routeTime r is).isEmpty)
  | [], st => by simp [scanPos, routeSlots, foldBest]
  | i :: is, st => by
    obtain ⟨ihb, iha⟩ := scanPos_spec depot customers tm c locs routeTime r is
      (posStep depot customers tm c locs routeTime r i st)
    rw [scanPos]
    constructor
    · rw [ihb, posStep_best]
      by_cases h : slotOk depot customers tm c locs routeTime i
      · simp [routeSlots, h, foldBest]
      · simp [routeSlots, h, foldBest]
    · rw [iha, posStep_ap]
      by_cases h : slotOk depot customers tm c locs routeTime i
      · simp [routeSlots, h]
      · simp [routeSlots, h]

/-- `isEmpty` of an append, as a `Bool` identity. -/
theorem isEmpty_append_bool {α : Type} (l₁ l₂ : List α) :
    (l₁ ++ l₂).isEmpty = (l₁.isEmpty && l₂.isEmpty) := by
  cases l₁ <;> simp

/-- The route loop only rewrites rejection-reason strings on the routes, and
its best candidate and `assignmentPossible` flag are the best fold and the
nonemptiness of the feasible-slot list. -/
theorem scanRoutes_spec (depot : Location) (customers : List Location) (tm : ℕ → ℕ → ℚ)
    (vehicles : List Vehicle) (c : Location) :
    ∀ (routes : List Route) (r : ℕ) (b : Best) (ap : Bool)
      (routes' : List Route) (b' : Best) (ap' : Bool),
      scanRoutes depot customers tm vehicles c routes r b ap = some (routes', b', ap') →
      routes'.map stripReason = routes.map stripReason ∧
      b' = foldBest b (feasSlots depot customers tm vehicles c routes r) ∧
      ap' = (ap || !(feasSlots depot customers tm vehicles c routes r).isEmpty)
  | [], r, b, ap, routes', b', ap', h => by
    simp only [scanRoutes, Option.some.injEq, Prod.mk.injEq] at h
    obtain ⟨hr, hb, ha⟩ := h
    subst hr hb ha
    simp [feasSlots, foldBest]
  | route :: rest, r, b, ap, routes', b', ap', h => by
    rw [scanRoutes] at h
    cases hfind : vehicles.find? (fun v => v.id == route.vehicleId) with
    | none => rw [hfind] at h; exact absurd h (by simp)
    | some vehicle =>
      rw [hfind] at h
      dsimp only at h
      by_cases hcap : (route.locations.map (fun l => l.demand)).sum + c.demand > vehicle.capacity
      · rw [if_pos hcap] at h
        cases hrec : scanRoutes depot customers tm vehicles c rest (r + 1) b ap with
        | none => rw [hrec] at h; exact absurd h (by simp)
        | some res =>
          obtain ⟨rs, b2, ap2⟩ := res
          obtain ⟨ihs, ihb, iha⟩ :=
            scanRoutes_spec depot customers tm vehicles c rest (r + 1) b ap rs b2 ap2 hrec
          rw [hrec] at h
          simp only [Option.map_some', Option.some.injEq, Prod.mk.injEq] at h
          obtain ⟨hr, hb, ha⟩ := h
          subst hr hb ha
          have hcapok : capOk vehicles route c = false := by
            simp [capOk, hfind, not_le.mpr hcap]
          refine ⟨?_, ?_, ?_⟩
          · simp only [List.map_cons, ihs]
            rfl
          · simp [feasSlots, hcapok, ihb]
          · simp [feasSlots, hcapok, iha]
      · rw [if_neg hcap] at h
        obtain ⟨sb, sa⟩ := scanPos_spec depot customers tm c route.locations route.totalTime r
          (List.range route.locations.length) (b, ap, route.infeasibilityReason)
        cases hrec : scanRoutes depot customers tm vehicles c rest (r + 1)
            (scanPos depot customers tm c route.locations route.totalTime r
              (List.range route.locations.length) (b, ap, route.infeasibilityReason)).1
            (scanPos depot customers tm c route.locations route.totalTime r
              (List.range route.locations.length) (b, ap, route.infeasibilityReason)).2.1 with
        | none => rw [hrec] at h; exact absurd h (by simp)
        | some res =>
          obtain ⟨rs, b2, ap2⟩ := res
          obtain ⟨ihs, ihb, iha⟩ :=
            scanRoutes_spec depot customers tm vehicles c rest (r + 1) _ _ rs b2 ap2 hrec
          rw [hrec] at h
          simp only [Option.map_some', Option.some.injEq, Prod.mk.injEq] at h
          obtain ⟨hr, hb, ha⟩ := h
          subst hr hb ha
          have hcapok : capOk vehicles route c = true := by
            simp [capOk, hfind, not_lt.mp hcap]
          refine ⟨?_, ?_, ?_⟩
          · simp only [List.map_cons, ihs]
            rfl
          · rw [ihb, sb]
            simp [feasSlots, hcapok, foldBest, List.foldl_append]
          · rw [iha, sa]
            simp [feasSlots, hcapok, Bool.or_assoc, isEmpty_append_bool, Bool.not_and]

/-- The route loop succeeds whenever every route's vehicle lookup succeeds. -/
theorem scanRoutes_isSome (depot : Location) (customers : List Location) (tm : ℕ → ℕ → ℚ)
    (vehicles : List Vehicle) (c : Location) :
    ∀ (routes : List Route) (r : ℕ) (b : Best) (ap : Bool),
      (∀ route ∈ routes, (vehicles.find? (fun v => v.id == route.vehicleId)).isSome = true) →
      (scanRoutes depot customers tm vehicles c routes r b ap).isSome = true
  | [], _, _, _, _ => by simp [scanRoutes]
  | route :: rest, r, b, ap, h => by
    rw [scanRoutes]
    have hh := h route (List.mem_cons_self _ _)
    cases hfind : vehicles.find? (fun v => v.id == route.vehicleId) with
    | none => rw [hfind] at hh; simp at hh
    | some vehicle =>
      have ih := fun (b : Best) (ap : Bool) =>
        scanRoutes_isSome depot customers tm vehicles c rest (r + 1) b ap
          (fun rt hrt => h rt (List.mem_cons_of_mem _ hrt))
      dsimp only
      by_cases hcap : (route.locations.map (fun l => l.demand)).sum + c.demand > vehicle.capacity
      · rw [if_pos hcap]
        cases hsc : scanRoutes depot customers tm vehicles c rest (r + 1) b ap with
        | none =>
          have := ih b ap
          rw [hsc] at this
          simp at this
        | some res => simp
      · rw [if_neg hcap]
        cases hsc : scanRoutes depot customers tm vehicles c rest (r + 1)
            (scanPos depot customers tm c route.locations route.totalTime r
              (List.range route.locations.length) (b, ap, route.infeasibilityReason)).1
            (scanPos depot customers tm c route.locations route.totalTime r
              (List.range route.locations.length) (b, ap, route.infeasibilityReason)).2.1 with
        | none =>
          have := ih (scanPos depot customers tm c route.locations route.totalTime r
              (List.range route.locations.length) (b, ap, route.infeasibilityReason)).1
            (scanPos depot customers tm c route.locations route.totalTime r
              (List.range route.locations.length) (b, ap, route.infeasibilityReason)).2.1
          rw [hsc] at this
          simp at this
        | some res => simp [hsc]

/-- Each feasible slot comes from a route of the list (at offset `r0`) and a
position passing both the capacity check and the slot checks. -/
theorem feasSlots_mem (depot : Location) (customers : List Location) (tm : ℕ → ℕ → ℚ)
    (vehicles : List Vehicle) (c : Location) :
    ∀ (routes : List Route) (r0 : ℕ) (s : ℕ × ℕ × ℚ),
      s ∈ feasSlots depot customers tm vehicles c routes r0 →
      ∃ k route i, routes[k]? = some route ∧ s.1 = r0 + k ∧ s.2.1 = i + 1 ∧
        i < route.locations.length ∧ capOk vehicles route c = true ∧
        slotOk depot customers tm c route.locations route.totalTime i = true ∧
        s.2.2 = slotIncrease depot customers tm c route.locations i
  | [], r0, s, h => by simp [feasSlots] at h
  | route :: rest, r0, s, h => by
    rw [feasSlots] at h
    rcases List.mem_append.mp h with h1 | h2
    · by_cases hcap : capOk vehicles route c = true
      · rw [if_pos hcap] at h1
        simp only [routeSlots, List.mem_filterMap, List.mem_range] at h1
        obtain ⟨i, hi, hfi⟩ := h1
        by_cases hok : slotOk depot customers tm c route.locations route.totalTime i = true
        · rw [if_pos hok] at hfi
          obtain rfl : (r0, i + 1, slotIncrease depot customers tm c route.locations i) = s :=
            Option.some.inj hfi
          exact ⟨0, route, i, by simp, by simp, rfl, hi, hcap, hok, rfl⟩
        · rw [if_neg hok] at hfi; exact absurd hfi (by simp)
      · rw [if_neg hcap] at h1; simp at h1
    · obtain ⟨k, rt, i, hget, hs1, hs2, hlen, hcap, hok, hinc⟩ :=
        feasSlots_mem depot customers tm vehicles c rest (r0 + 1) s h2
      exact ⟨k + 1, rt, i, by simpa using hget, by omega, hs2, hlen, hcap, hok, hinc⟩

/-- Routes equal after forgetting the rejection reason agree on every other
field. -/
theorem stripReason_fields {a b : Route} (h : stripReason a = stripReason b) :
    a.vehicleId = b.vehicleId ∧ a.locations = b.locations ∧ a.totalDistance = b.totalDistance ∧
      a.totalTime = b.totalTime ∧ a.feasible = b.feasible := by
  cases a; cases b
  simpa [stripReason, Route.mk.injEq] using h

/-- Case analysis of one per-customer iteration: either no slot with cost
below `Number.MAX_VALUE` is feasible and the customer is appended to
`unassignedLocations` (with a reason exactly when no slot passed the checks
at all), or the first cost-minimal feasible slot is chosen and the customer
is spliced there. -/
theorem assignCustomer_cases (cd : ℚ → ℚ → ℚ → ℚ → ℚ) (depot : Location)
    (customers : List Location) (tm : ℕ → ℕ → ℚ) (vehicles : List Vehicle)
    (st : SolveState) (c : Location) (st' : SolveState)
    (h : assignCustomer cd depot customers tm vehicles st c = some st') :
    (∃ routes1 : List Route, routes1.map stripReason = st.routes.map stripReason ∧
      (∀ s ∈ feasSlots depot customers tm vehicles c st.routes 0, MAX_VALUE ≤ s.2.2) ∧
      st' = { routes := routes1, unassigned := st.unassigned ++ [c],
              reasons := if (feasSlots depot customers tm vehicles c st.routes 0).isEmpty then
                  st.reasons ++ [noAssignMsg c]
                else st.reasons }) ∨
    (∃ (routes1 : List Route) (k i : ℕ) (inc : ℚ) (route : Route)
      (l₁ l₂ : List (ℕ × ℕ × ℚ)),
      routes1.map stripReason = st.routes.map stripReason ∧
      feasSlots depot customers tm vehicles c st.routes 0 = l₁ ++ (k, i + 1, inc) :: l₂ ∧
      inc < MAX_VALUE ∧ (∀ t ∈ l₁, inc < t.2.2) ∧
      (∀ t ∈ feasSlots depot customers tm vehicles c st.routes 0, inc ≤ t.2.2) ∧
      routes1[k]? = some route ∧ k < st.routes.length ∧ i < route.locations.length ∧
      capOk vehicles route c = true ∧
      slotOk depot customers tm c route.locations route.totalTime i = true ∧
      inc = slotIncrease depot customers tm c route.locations i ∧
      st' = { routes := routes1.set k { route with
                locations := List.insertIdx (i + 1) c route.locations,
                totalTime := route.totalTime + inc,
                totalDistance := pathDistance cd (List.insertIdx (i + 1) c route.locations) },
              unassigned := st.unassigned, reasons := st.reasons }) := by
  unfold assignCustomer at h
  cases hsc : scanRoutes depot customers tm vehicles c st.routes 0 initBest false with
  | none => rw [hsc] at h; exact absurd h (by simp)
  | some res =>
    obtain ⟨routes1, best, ap⟩ := res
    rw [hsc] at h
    dsimp only at h
    obtain ⟨hstrip, hbest, hap⟩ :=
      scanRoutes_spec depot customers tm vehicles c st.routes 0 initBest false routes1 best ap hsc
    rcases foldBest_spec initBest (feasSlots depot customers tm vehicles c st.routes 0) with
      ⟨hfb, hall⟩ | ⟨l₁, s, l₂, hsplit, hfb, hlt, hbef, hmin⟩
    · -- no slot below the sentinel: the customer is unassigned
      rw [hfb] at hbest
      have hne : ¬ best.routeIndex ≠ -1 := by rw [hbest]; simp [initBest]
      rw [if_neg hne] at h
      left
      refine ⟨routes1, hstrip, by simpa [initBest] using hall, ?_⟩
      obtain rfl := Option.some.inj h
      cases hemp : (feasSlots depot customers tm vehicles c st.routes 0).isEmpty with
      | true =>
        have hapv : ap = false := by rw [hap, hemp]; rfl
        rw [hapv]
        simp
      | false =>
        have hapv : ap = true := by rw [hap, hemp]; rfl
        rw [hapv]
        simp
    · -- the first cost-minimal slot is chosen
      rw [hfb] at hbest
      obtain ⟨k, route0, i, hget0, hs1, hs2, hlen0, hcap0, hok0, hinc0⟩ :=
        feasSlots_mem depot customers tm vehicles c st.routes 0 s
          (hsplit ▸ List.mem_append_right l₁ (List.mem_cons_self _ _))
      have hne : best.routeIndex ≠ -1 := by
        rw [hbest]
        simp only [ne_eq]
        omega
      rw [if_pos hne] at h
      have htoNat : best.routeIndex.toNat = k := by rw [hbest]; simpa using hs1
      have hposNat : best.position.toNat = i + 1 := by rw [hbest]; simpa using hs2
      have hgetmap := congrArg (fun l : List Route => l[k]?) hstrip
      simp only [List.getElem?_map, hget0] at hgetmap
      cases hget1 : routes1[k]? with
      | none => rw [hget1] at hgetmap; simp at hgetmap
      | some route =>
        rw [hget1] at hgetmap
        simp only [Option.map_some', Option.some.injEq] at hgetmap
        obtain ⟨hvid, hlocs, _, htime, _⟩ := stripReason_fields hgetmap
        rw [htoNat, hget1] at h
        dsimp only at h
        obtain rfl := Option.some.inj h
        right
        refine ⟨routes1, k, i, s.2.2, route, l₁, l₂, hstrip, ?_, by rwa [initBest] at hlt,
          hbef, hmin, hget1, ?_, ?_, ?_, ?_, ?_, ?_⟩
        · rw [hsplit, show k = s.1 by omega, ← hs2]
        · exact (List.getElem?_eq_some_iff.mp hget0).choose
        · rwa [hlocs]
        · have : capOk vehicles route c = capOk vehicles route0 c := by
            unfold capOk
            rw [hvid, hlocs]
          rw [this]; exact hcap0
        · rw [hlocs, htime]; exact hok0
        · rw [hlocs]; exact hinc0
        · have hbi : best.increase = s.2.2 := by rw [hbest]
          rw [hposNat, hbi]

/-- Destructor for a successful solve: the final state of the customer loop
and the aggregation applied to it. -/
theorem solveVRPTW_eq_some (cd : ℚ → ℚ → ℚ → ℚ → ℚ) (depot : Location)
    (customers : List Location) (vehicles : List Vehicle) (tm : ℕ → ℕ → ℚ)
    (sol : VRPTWSolution) (h : solveVRPTW cd depot customers vehicles tm = some sol) :
    ∃ st : SolveState,
      solveLoop cd depot customers tm vehicles
        (customers.insertionSort (fun a b => a.readyTime ≤ b.readyTime))
        ⟨initRoutes depot vehicles, [], []⟩ = some st ∧
      sol = { routes := st.routes.map (closeRoute cd depot),
              unassignedLocations := st.unassigned,
              totalDistance :=
                ((st.routes.map (closeRoute cd depot)).map (fun r => r.totalDistance)).sum,
              totalTime :=
                ((st.routes.map (closeRoute cd depot)).map (fun r => r.totalTime)).sum,
              feasible := st.unassigned.length == 0 &&
                (st.routes.map (closeRoute cd depot)).all (fun r => r.feasible),
              infeasibilityReasons := st.reasons } := by
  unfold solveVRPTW at h
  dsimp only at h
  cases hl : solveLoop cd depot customers tm vehicles
      (customers.insertionSort (fun a b => a.readyTime ≤ b.readyTime))
      ⟨initRoutes depot vehicles, [], []⟩ with
  | none => rw [hl] at h; exact absurd h (by simp)
  | some st =>
    rw [hl] at h
    dsimp only at h
    exact ⟨st, rfl, (Option.some.inj h).symm⟩

/-- Invariants of the solve state are preserved along the customer loop. -/
theorem solveLoop_inv (cd : ℚ → ℚ → ℚ → ℚ → ℚ) (depot : Location) (customers : List Location)
    (tm : ℕ → ℕ → ℚ) (vehicles : List Vehicle) (P : SolveState → Prop)
    (hstep : ∀ st c st', c ∈ customers →
      assignCustomer cd depot customers tm vehicles st c = some st' → P st → P st') :
    ∀ (cs : List Location), (∀ c ∈ cs, c ∈ customers) →
      ∀ (st st' : SolveState),
      solveLoop cd depot customers tm vehicles cs st = some st' → P st → P st'
  | [], _, st, st', h, hp => by
    rw [solveLoop] at h
    obtain rfl := Option.some.inj h
    exact hp
  | c :: cs, hmem, st, st', h, hp => by
    rw [solveLoop] at h
    cases ha : assignCustomer cd depot customers tm vehicles st c with
    | none => rw [ha] at h; exact absurd h (by simp)
    | some st1 =>
      rw [ha] at h
      exact solveLoop_inv cd depot customers tm vehicles P hstep cs
        (fun x hx => hmem x (List.mem_cons_of_mem _ hx)) st1 st' h
        (hstep st c st1 (hmem c (List.mem_cons_self _ _)) ha hp)

/-- Routes related by forgetting reasons have pairwise related members. -/
theorem mem_of_map_strip_eq {routes1 routes : List Route}
    (h : routes1.map stripReason = routes.map stripReason) :
    ∀ r1 ∈ routes1, ∃ r ∈ routes, stripReason r1 = stripReason r := by
  intro r1 h1
  have : stripReason r1 ∈ routes.map stripReason := by
    rw [← h]; exact List.mem_map_of_mem _ h1
  obtain ⟨r, hr, hsr⟩ := List.mem_map.mp this
  exact ⟨r, hr, hsr.symm⟩

/-- One step of the customer loop succeeds and preserves the property that
every route's vehicle lookup succeeds. -/
theorem assignCustomer_isSome (cd : ℚ → ℚ → ℚ → ℚ → ℚ) (depot : Location)
    (customers : List Location) (tm : ℕ → ℕ → ℚ) (vehicles : List Vehicle)
    (st : SolveState) (c : Location)
    (hveh : ∀ route ∈ st.routes, (vehicles.find? (fun v => v.id == route.vehicleId)).isSome = true) :
    ∃ st', assignCustomer cd depot customers tm vehicles st c = some st' ∧
      ∀ route ∈ st'.routes,
        (vehicles.find? (fun v => v.id == route.vehicleId)).isSome = true := by
  have hsc := scanRoutes_isSome depot customers tm vehicles c st.routes 0 initBest false hveh
  cases hscv : scanRoutes depot customers tm vehicles c st.routes 0 initBest false with
  | none => rw [hscv] at hsc; simp at hsc
  | some res =>
    obtain ⟨routes1, best, ap⟩ := res
    obtain ⟨hstrip, hbest, hap⟩ :=
      scanRoutes_spec depot customers tm vehicles c st.routes 0 initBest false routes1 best ap hscv
    have hveh1 : ∀ route ∈ routes1,
        (vehicles.find? (fun v => v.id == route.vehicleId)).isSome = true := by
      intro r1 h1
      obtain ⟨r, hr, hsr⟩ := mem_of_map_strip_eq hstrip r1 h1
      obtain ⟨hid, -⟩ := stripReason_fields hsr
      rw [hid]
      exact hveh r hr
    unfold assignCustomer
    rw [hscv]
    dsimp only
    by_cases hne : best.routeIndex ≠ -1
    · rw [if_pos hne]
      rcases foldBest_spec initBest (feasSlots depot customers tm vehicles c st.routes 0) with
        ⟨hfb, -⟩ | ⟨l₁, s, l₂, hsplit, hfb, -, -, -⟩
      · rw [hbest, hfb] at hne
        simp [initBest] at hne
      · obtain ⟨k, route0, i, hget0, hs1, hs2, hlen0, -, -, -⟩ :=
          feasSlots_mem depot customers tm vehicles c st.routes 0 s
            (hsplit ▸ List.mem_append_right l₁ (List.mem_cons_self _ _))
        rw [hbest] at hne ⊢
        rw [hfb] at hne ⊢
        have hklen : k < routes1.length := by
          have := congrArg List.length hstrip
          simp only [List.length_map] at this
          rw [this]
          exact (List.getElem?_eq_some_iff.mp hget0).choose
        have htoNat : (⟨(s.1 : ℤ), s.2.2, (s.2.1 : ℤ)⟩ : Best).routeIndex.toNat = k := by
          simpa using hs1
        rw [htoNat]
        cases hget1 : routes1[k]? with
        | none =>
          rw [List.getElem?_eq_none_iff] at hget1
          omega
        | some route =>
          refine ⟨_, rfl, ?_⟩
          intro r1 h1
          rcases List.mem_or_eq_of_mem_set h1 with h1 | rfl
          · exact hveh1 r1 h1
          · have : route ∈ routes1 := List.getElem?_eq_some_iff.mp hget1 |>.choose_spec ▸
              List.getElem_mem _
            exact hveh1 route this
    · rw [if_neg hne]
      exact ⟨_, rfl, hveh1⟩

/-- C9 helper: the customer loop always succeeds when every route's vehicle
lookup succeeds, and the property is preserved. -/
theorem solveLoop_isSome (cd : ℚ → ℚ → ℚ → ℚ → ℚ) (depot : Location) (customers : List Location)
    (tm : ℕ → ℕ → ℚ) (vehicles : List Vehicle) :
    ∀ (cs : List Location) (st : SolveState),
      (∀ route ∈ st.routes, (vehicles.find? (fun v => v.id == route.vehicleId)).isSome = true) →
      (solveLoop cd depot customers tm vehicles cs st).isSome = true
  | [], st, _ => by simp [solveLoop]
  | c :: cs, st, hveh => by
    rw [solveLoop]
    obtain ⟨st', hst', hveh'⟩ := assignCustomer_isSome cd depot customers tm vehicles st c hveh
    rw [hst']
    exact solveLoop_isSome cd depot customers tm vehicles cs st' hveh'

/-- C9: `solveVRPTW` never fails: on every input (well-formed or not) it
returns a solution. The vehicle lookup `find(...)!` always succeeds because
every route is created from a vehicle of the input list, and a missing
matrix index only skips the candidate slot (the `continue` at line 91),
which the embedding reflects inside `posStep`. -/
theorem solveVRPTW_total (cd : ℚ → ℚ → ℚ → ℚ → ℚ) (depot : Location)
    (customers : List Location) (vehicles : List Vehicle) (tm : ℕ → ℕ → ℚ) :
    (solveVRPTW cd depot customers vehicles tm).isSome = true := by
  unfold solveVRPTW
  dsimp only
  have hveh : ∀ route ∈ initRoutes depot vehicles,
      (vehicles.find? (fun v => v.id == route.vehicleId)).isSome = true := by
    intro route hroute
    obtain ⟨v, hv, rfl⟩ := List.mem_map.mp hroute
    simp only [List.find?_isSome]
    exact ⟨v, hv, by simp⟩
  have := solveLoop_isSome cd depot customers tm vehicles
    (customers.insertionSort (fun a b => a.readyTime ≤ b.readyTime))
    ⟨initRoutes depot vehicles, [], []⟩ hveh
  cases hl : solveLoop cd depot customers tm vehicles
      (customers.insertionSort (fun a b => a.readyTime ≤ b.readyTime))
      ⟨initRoutes depot vehicles, [], []⟩ with
  | none => rw [hl] at this; simp at this
  | some st => rfl

/-- One customer step never changes any route's `feasible` flag value: routes
with all flags `true` keep all flags `true`. -/
theorem assignCustomer_feasible (cd : ℚ → ℚ → ℚ → ℚ → ℚ) (depot : Location)
    (customers : List Location) (tm : ℕ → ℕ → ℚ) (vehicles : List Vehicle)
    (st : SolveState) (c : Location) (st' : SolveState)
    (h : assignCustomer cd depot customers tm vehicles st c = some st')
    (hfeas : ∀ r ∈ st.routes, r.feasible = true) :
    ∀ r ∈ st'.routes, r.feasible = true := by
  rcases assignCustomer_cases cd depot customers tm vehicles st c st' h with
    ⟨routes1, hstrip, -, rfl⟩ |
    ⟨routes1, k, i, inc, route, l₁, l₂, hstrip, -, -, -, -, hget1, -, -, -, -, -, rfl⟩
  · intro r hr
    obtain ⟨r0, hr0, hsr⟩ := mem_of_map_strip_eq hstrip r hr
    obtain ⟨-, -, -, -, hf⟩ := stripReason_fields hsr
    rw [hf]
    exact hfeas r0 hr0
  · intro r hr
    have hfeas1 : ∀ r ∈ routes1, r.feasible = true := by
      intro r1 h1
      obtain ⟨r0, hr0, hsr⟩ := mem_of_map_strip_eq hstrip r1 h1
      obtain ⟨-, -, -, -, hf⟩ := stripReason_fields hsr
      rw [hf]
      exact hfeas r0 hr0
    rcases List.mem_or_eq_of_mem_set hr with hr | rfl
    · exact hfeas1 r hr
    · have hmem : route ∈ routes1 :=
        List.getElem?_eq_some_iff.mp hget1 |>.choose_spec ▸ List.getElem_mem _
      exact hfeas1 route hmem

/-- C5: no construction step sets a route's `feasible` flag to `false`; every
returned route has `feasible = true`, and the solution's `feasible` flag
equals emptiness of `unassignedLocations`. -/
theorem solveVRPTW_feasible_flags (cd : ℚ → ℚ → ℚ → ℚ → ℚ) (depot : Location)
    (customers : List Location) (vehicles : List Vehicle) (tm : ℕ → ℕ → ℚ)
    (sol : VRPTWSolution) (h : solveVRPTW cd depot customers vehicles tm = some sol) :
    (∀ st c st', (∀ r ∈ st.routes, r.feasible = true) →
      assignCustomer cd depot customers tm vehicles st c = some st' →
      ∀ r ∈ st'.routes, r.feasible = true) ∧
    (∀ r ∈ sol.routes, r.feasible = true) ∧
    sol.feasible = sol.unassignedLocations.isEmpty := by
  obtain ⟨st, hloop, rfl⟩ := solveVRPTW_eq_some cd depot customers vehicles tm sol h
  have hfinal : ∀ r ∈ st.routes, r.feasible = true := by
    refine solveLoop_inv cd depot customers tm vehicles
      (fun s => ∀ r ∈ s.routes, r.feasible = true)
      (fun s c s' _ hstep hp => assignCustomer_feasible cd depot customers tm vehicles
        s c s' hstep hp)
      _ (fun x hx => List.mem_insertionSort _ |>.mp hx) _ st hloop ?_
    intro r hr
    obtain ⟨v, -, rfl⟩ := List.mem_map.mp hr
    rfl
  have hclosed : ∀ r ∈ st.routes.map (closeRoute cd depot), r.feasible = true := by
    intro r hr
    obtain ⟨r0, hr0, rfl⟩ := List.mem_map.mp hr
    unfold closeRoute
    split
    · exact hfinal r0 hr0
    · exact hfinal r0 hr0
  refine ⟨fun s c s' hp hstep =>
    assignCustomer_feasible cd depot customers tm vehicles s c s' hstep hp, hclosed, ?_⟩
  have hall : (st.routes.map (closeRoute cd depot)).all (fun r => r.feasible) = true :=
    List.all_eq_true.mpr (fun r hr => hclosed r hr)
  show (st.unassigned.length == 0 &&
    (st.routes.map (closeRoute cd depot)).all (fun r => r.feasible)) = st.unassigned.isEmpty
  rw [hall, Bool.and_true]
  cases st.unassigned <;> rfl

/-- One customer step preserves the invariant that every route's stored
`totalDistance` is the consecutive-pair sum over its locations. -/
theorem assignCustomer_distance (cd : ℚ → ℚ → ℚ → ℚ → ℚ) (depot : Location)
    (customers : List Location) (tm : ℕ → ℕ → ℚ) (vehicles : List Vehicle)
    (st : SolveState) (c : Location) (st' : SolveState)
    (h : assignCustomer cd depot customers tm vehicles st c = some st')
    (hd : ∀ r ∈ st.routes, r.totalDistance = pathDistance cd r.locations) :
    ∀ r ∈ st'.routes, r.totalDistance = pathDistance cd r.locations := by
  rcases assignCustomer_cases cd depot customers tm vehicles st c st' h with
    ⟨routes1, hstrip, -, rfl⟩ |
    ⟨routes1, k, i, inc, route, l₁, l₂, hstrip, -, -, -, -, hget1, -, -, -, -, -, rfl⟩
  · intro r hr
    obtain ⟨r0, hr0, hsr⟩ := mem_of_map_strip_eq hstrip r hr
    obtain ⟨-, hl, hdd, -, -⟩ := stripReason_fields hsr
    rw [hdd, hl]
    exact hd r0 hr0
  · intro r hr
    have hd1 : ∀ r ∈ routes1, r.totalDistance = pathDistance cd r.locations := by
      intro r1 h1
      obtain ⟨r0, hr0, hsr⟩ := mem_of_map_strip_eq hstrip r1 h1
      obtain ⟨-, hl, hdd, -, -⟩ := stripReason_fields hsr
      rw [hdd, hl]
      exact hd r0 hr0
    rcases List.mem_or_eq_of_mem_set hr with hr | rfl
    · exact hd1 r hr
    · rfl

/-- C3: the solution's `totalDistance` is the sum of the routes' values, and
every returned route's `totalDistance` is exactly the consecutive-pair sum of
the distance function over its final location sequence. -/
theorem solveVRPTW_distance_sums (cd : ℚ → ℚ → ℚ → ℚ → ℚ) (depot : Location)
    (customers : List Location) (vehicles : List Vehicle) (tm : ℕ → ℕ → ℚ)
    (sol : VRPTWSolution) (h : solveVRPTW cd depot customers vehicles tm = some sol) :
    sol.totalDistance = (sol.routes.map (fun r => r.totalDistance)).sum ∧
    ∀ r ∈ sol.routes, r.totalDistance = pathDistance cd r.locations := by
  obtain ⟨st, hloop, rfl⟩ := solveVRPTW_eq_some cd depot customers vehicles tm sol h
  refine ⟨rfl, ?_⟩
  have hfinal : ∀ r ∈ st.routes, r.totalDistance = pathDistance cd r.locations := by
    refine solveLoop_inv cd depot customers tm vehicles
      (fun s => ∀ r ∈ s.routes, r.totalDistance = pathDistance cd r.locations)
      (fun s c s' _ hstep hp => assignCustomer_distance cd depot customers tm vehicles
        s c s' hstep hp)
      _ (fun x hx => List.mem_insertionSort _ |>.mp hx) _ st hloop ?_
    intro r hr
    obtain ⟨v, -, rfl⟩ := List.mem_map.mp hr
    rfl
  intro r hr
  obtain ⟨r0, hr0, rfl⟩ := List.mem_map.mp hr
  unfold closeRoute
  split
  · rfl
  · exact hfinal r0 hr0

/-- One customer step preserves the shape invariant: every route starts at
the depot and otherwise contains only input customers. -/
theorem assignCustomer_shape (cd : ℚ → ℚ → ℚ → ℚ → ℚ) (depot : Location)
    (customers : List Location) (tm : ℕ → ℕ → ℚ) (vehicles : List Vehicle)
    (st : SolveState) (c : Location) (st' : SolveState) (hc : c ∈ customers)
    (h : assignCustomer cd depot customers tm vehicles st c = some st')
    (hp : ∀ r ∈ st.routes, ∃ mid, r.locations = depot :: mid ∧ ∀ l ∈ mid, l ∈ customers) :
    ∀ r ∈ st'.routes, ∃ mid, r.locations = depot :: mid ∧ ∀ l ∈ mid, l ∈ customers := by
  rcases assignCustomer_cases cd depot customers tm vehicles st c st' h with
    ⟨routes1, hstrip, -, rfl⟩ |
    ⟨routes1, k, i, inc, route, l₁, l₂, hstrip, -, -, -, -, hget1, -, hilen, -, -, -, rfl⟩
  · intro r hr
    obtain ⟨r0, hr0, hsr⟩ := mem_of_map_strip_eq hstrip r hr
    obtain ⟨-, hl, -, -, -⟩ := stripReason_fields hsr
    rw [hl]
    exact hp r0 hr0
  · have hp1 : ∀ r ∈ routes1, ∃ mid, r.locations = depot :: mid ∧ ∀ l ∈ mid, l ∈ customers := by
      intro r1 h1
      obtain ⟨r0, hr0, hsr⟩ := mem_of_map_strip_eq hstrip r1 h1
      obtain ⟨-, hl, -, -, -⟩ := stripReason_fields hsr
      rw [hl]
      exact hp r0 hr0
    intro r hr
    rcases List.mem_or_eq_of_mem_set hr with hr | rfl
    · exact hp1 r hr
    · have hmem : route ∈ routes1 :=
        List.getElem?_eq_some_iff.mp hget1 |>.choose_spec ▸ List.getElem_mem _
      obtain ⟨mid, hmid, hmidmem⟩ := hp1 route hmem
      have hile : i ≤ mid.length := by
        rw [hmid] at hilen
        simpa using Nat.lt_succ_iff.mp hilen
      refine ⟨List.insertIdx i c mid, ?_, ?_⟩
      · show List.insertIdx (i + 1) c route.locations = depot :: List.insertIdx i c mid
        rw [hmid, List.insertIdx_succ_cons]
      · intro l hl
        rcases (List.mem_insertIdx hile).mp hl with rfl | hl
        · exact hc
        · exact hmidmem l hl

/-- C4: with ids distinct from the depot's, every returned route starts and
ends at the depot (a route that received no customers contains the depot
exactly once, as both first and last element). -/
theorem solveVRPTW_depot_endpoints (cd : ℚ → ℚ → ℚ → ℚ → ℚ) (depot : Location)
    (customers : List Location) (vehicles : List Vehicle) (tm : ℕ → ℕ → ℚ)
    (sol : VRPTWSolution) (hids : ∀ c ∈ customers, c.id ≠ depot.id)
    (h : solveVRPTW cd depot customers vehicles tm = some sol) :
    ∀ r ∈ sol.routes, r.locations.head? = some depot ∧ r.locations.getLast? = some depot := by
  obtain ⟨st, hloop, rfl⟩ := solveVRPTW_eq_some cd depot customers vehicles tm sol h
  have hfinal : ∀ r ∈ st.routes,
      ∃ mid, r.locations = depot :: mid ∧ ∀ l ∈ mid, l ∈ customers := by
    refine solveLoop_inv cd depot customers tm vehicles
      (fun s => ∀ r ∈ s.routes, ∃ mid, r.locations = depot :: mid ∧ ∀ l ∈ mid, l ∈ customers)
      (fun s c s' hc hstep hp => assignCustomer_shape cd depot customers tm vehicles
        s c s' hc hstep hp)
      _ (fun x hx => List.mem_insertionSort _ |>.mp hx) _ st hloop ?_
    intro r hr
    obtain ⟨v, -, rfl⟩ := List.mem_map.mp hr
    exact ⟨[], rfl, by simp⟩
  intro r hr
  obtain ⟨r0, hr0, rfl⟩ := List.mem_map.mp hr
  obtain ⟨mid, hmid, hmidmem⟩ := hfinal r0 hr0
  unfold closeRoute
  split
  case isTrue hcond =>
    refine ⟨?_, ?_⟩
    · show (r0.locations ++ [depot]).head? = some depot
      rw [hmid]
      rfl
    · exact List.getLast?_concat _
  case isFalse hcond =>
    show r0.locations.head? = some depot ∧ r0.locations.getLast? = some depot
    cases hm : mid with
    | nil =>
      rw [hmid, hm]
      exact ⟨rfl, rfl⟩
    | cons a as =>
      exfalso
      rw [hmid, hm] at hcond
      push_neg at hcond
      have hlen : 1 < (depot :: a :: as).length := by simp
      have hlast := hcond hlen
      have hgd : (depot :: a :: as).getD ((depot :: a :: as).length - 1) depot =
          (depot :: a :: as).getLast (by simp) := by
        rw [List.getD_eq_getElem?_getD, List.getElem?_eq_getElem (by simp),
          List.getLast_eq_getElem]
        rfl
      rw [hgd] at hlast
      have hmemlast : (depot :: a :: as).getLast (by simp) ∈ a :: as := by
        rw [List.getLast_cons (by simp)]
        exact List.getLast_mem _
      exact hids _ (hmidmem _ (hm ▸ hmemlast)) hlast

/-- Filtering a location list can only lower the demand sum when all demands
are non-negative. -/
theorem sum_filter_le_sum (p : Location → Bool) (l : List Location)
    (h : ∀ x ∈ l, 0 ≤ x.demand) :
    ((l.filter p).map (fun x => x.demand)).sum ≤ (l.map (fun x => x.demand)).sum := by
  induction l with
  | nil => simp
  | cons a t ih =>
    have ha := h a (List.mem_cons_self _ _)
    have iht := ih (fun x hx => h x (List.mem_cons_of_mem _ hx))
    by_cases hp : p a
    · simp only [List.filter_cons, hp, if_true, List.map_cons, List.sum_cons]
      linarith
    · simp [List.filter_cons, hp]
      linarith

/-- The per-route capacity invariant carried through the construction:
whenever the first vehicle with the route's `vehicleId` is `v`, the route's
total demand is at most `v.capacity`. -/
def capInv (vehicles : List Vehicle) (r : Route) : Prop :=
  ∀ v, vehicles.find? (fun x => x.id == r.vehicleId) = some v →
    (r.locations.map (fun l => l.demand)).sum ≤ v.capacity

/-- One customer step preserves the capacity invariant: an insertion is
guarded by the capacity check against the looked-up vehicle. -/
theorem assignCustomer_capacity (cd : ℚ → ℚ → ℚ → ℚ → ℚ) (depot : Location)
    (customers : List Location) (tm : ℕ → ℕ → ℚ) (vehicles : List Vehicle)
    (st : SolveState) (c : Location) (st' : SolveState)
    (h : assignCustomer cd depot customers tm vehicles st c = some st')
    (hp : ∀ r ∈ st.routes, capInv vehicles r) :
    ∀ r ∈ st'.routes, capInv vehicles r := by
  rcases assignCustomer_cases cd depot customers tm vehicles st c st' h with
    ⟨routes1, hstrip, -, rfl⟩ |
    ⟨routes1, k, i, inc, route, l₁, l₂, hstrip, -, -, -, -, hget1, -, hilen, hcap, -, -, rfl⟩
  · intro r hr
    obtain ⟨r0, hr0, hsr⟩ := mem_of_map_strip_eq hstrip r hr
    obtain ⟨hid, hl, -, -, -⟩ := stripReason_fields hsr
    intro v hv
    rw [hl]
    exact hp r0 hr0 v (by rw [← hid]; exact hv)
  · have hp1 : ∀ r ∈ routes1, capInv vehicles r := by
      intro r1 h1
      obtain ⟨r0, hr0, hsr⟩ := mem_of_map_strip_eq hstrip r1 h1
      obtain ⟨hid, hl, -, -, -⟩ := stripReason_fields hsr
      intro v hv
      rw [hl]
      exact hp r0 hr0 v (by rw [← hid]; exact hv)
    intro r hr
    rcases List.mem_or_eq_of_mem_set hr with hr | rfl
    · exact hp1 r hr
    · intro v hv
      unfold capOk at hcap
      cases hfind : vehicles.find? (fun x => x.id == route.vehicleId) with
      | none => rw [hfind] at hcap; simp at hcap
      | some vehicle =>
        rw [hfind] at hcap
        simp only [decide_eq_true_eq] at hcap
        have hveq : vehicle = v := by
          have : vehicles.find? (fun x => x.id == route.vehicleId) = some v := hv
          rw [hfind] at this
          exact Option.some.inj this
        subst hveq
        have hsum : ((List.insertIdx (i + 1) c route.locations).map
            (fun l => l.demand)).sum =
            (route.locations.map (fun l => l.demand)).sum + c.demand := by
          have hperm : List.Perm (List.insertIdx (i + 1) c route.locations)
              (c :: route.locations) :=
            List.perm_insertIdx c route.locations (by omega)
          rw [List.Perm.sum_eq (hperm.map (fun l => l.demand))]
          simp [add_comm]
        dsimp only
        rw [hsum]
        linarith

/-- C1 (amended): with a zero-demand depot, non-negative customer demands
and non-negative vehicle capacities, every returned route's cumulative
demand, the depot excluded, is at most the capacity of the first vehicle
whose id equals the route's `vehicleId`. -/
theorem solveVRPTW_capacity (cd : ℚ → ℚ → ℚ → ℚ → ℚ) (depot : Location)
    (customers : List Location) (vehicles : List Vehicle) (tm : ℕ → ℕ → ℚ)
    (sol : VRPTWSolution)
    (hdep : depot.demand = 0)
    (hcust : ∀ c ∈ customers, 0 ≤ c.demand)
    (hcap : ∀ v ∈ vehicles, 0 ≤ v.capacity)
    (h : solveVRPTW cd depot customers vehicles tm = some sol) :
    ∀ r ∈ sol.routes, ∀ v, vehicles.find? (fun x => x.id == r.vehicleId) = some v →
      demandExcl depot r ≤ v.capacity := by
  obtain ⟨st, hloop, rfl⟩ := solveVRPTW_eq_some cd depot customers vehicles tm sol h
  have hcapfin : ∀ r ∈ st.routes, capInv vehicles r := by
    refine solveLoop_inv cd depot customers tm vehicles
      (fun s => ∀ r ∈ s.routes, capInv vehicles r)
      (fun s c s' _ hstep hp => assignCustomer_capacity cd depot customers tm vehicles
        s c s' hstep hp)
      _ (fun x hx => List.mem_insertionSort _ |>.mp hx) _ st hloop ?_
    intro r hr
    obtain ⟨w, hw, rfl⟩ := List.mem_map.mp hr
    intro v hv
    have hvmem : v ∈ vehicles := List.mem_of_find?_eq_some hv
    show ([depot].map (fun l => l.demand)).sum ≤ v.capacity
    simp only [List.map_cons, List.map_nil, List.sum_cons, List.sum_nil, add_zero, hdep]
    exact hcap v hvmem
  have hshape : ∀ r ∈ st.routes,
      ∃ mid, r.locations = depot :: mid ∧ ∀ l ∈ mid, l ∈ customers := by
    refine solveLoop_inv cd depot customers tm vehicles
      (fun s => ∀ r ∈ s.routes, ∃ mid, r.locations = depot :: mid ∧ ∀ l ∈ mid, l ∈ customers)
      (fun s c s' hc hstep hp => assignCustomer_shape cd depot customers tm vehicles
        s c s' hc hstep hp)
      _ (fun x hx => List.mem_insertionSort _ |>.mp hx) _ st hloop ?_
    intro r hr
    obtain ⟨w, -, rfl⟩ := List.mem_map.mp hr
    exact ⟨[], rfl, by simp⟩
  intro r hr v hv
  obtain ⟨r0, hr0, rfl⟩ := List.mem_map.mp hr
  obtain ⟨mid, hmid, hmidmem⟩ := hshape r0 hr0
  have hnonneg0 : ∀ l ∈ r0.locations, 0 ≤ l.demand := by
    intro l hl
    rw [hmid] at hl
    rcases List.mem_cons.mp hl with rfl | hl
    · rw [hdep]
    · exact hcust l (hmidmem l hl)
  have hfilter_le : ∀ (locs : List Location), (∀ l ∈ locs, 0 ≤ l.demand) →
      ((locs.filter (fun l => !(l.id == depot.id))).map (fun l => l.demand)).sum ≤
        (locs.map (fun l => l.demand)).sum :=
    fun locs hlocs => sum_filter_le_sum _ locs hlocs
  have hci : capInv vehicles (closeRoute cd depot r0) := by
    unfold closeRoute
    split
    · intro w hw
      have hsum : ((r0.locations ++ [depot]).map (fun l => l.demand)).sum =
          (r0.locations.map (fun l => l.demand)).sum := by
        simp [hdep]
      show ((r0.locations ++ [depot]).map (fun l => l.demand)).sum ≤ w.capacity
      rw [hsum]
      exact hcapfin r0 hr0 w hw
    · exact hcapfin r0 hr0
  have hnonneg : ∀ l ∈ (closeRoute cd depot r0).locations, 0 ≤ l.demand := by
    unfold closeRoute
    split
    · intro l hl
      rcases List.mem_append.mp hl with hl | hl
      · exact hnonneg0 l hl
      · rcases List.mem_singleton.mp hl with rfl
        rw [hdep]
    · exact hnonneg0
  calc demandExcl depot (closeRoute cd depot r0)
      ≤ ((closeRoute cd depot r0).locations.map (fun l => l.demand)).sum :=
        hfilter_le _ hnonneg
    _ ≤ v.capacity := hci v hv

/-- A distance function that is identically zero, standing in for the
Haversine distance on counterexample inputs where distances are irrelevant. -/
def cd0 : ℚ → ℚ → ℚ → ℚ → ℚ := fun _ _ _ _ => 0

/-- An all-zero time matrix. -/
def tmZero : ℕ → ℕ → ℚ := fun _ _ => 0

/-- Depot of the negative-capacity counterexample. -/
def cexDepot : Location := ⟨"depot", "D", 0, 0, 0, 0, 100, 0⟩

/-- A vehicle with negative capacity. -/
def cexVehicle : Vehicle := ⟨"v1", -1, cexDepot, cexDepot, ""⟩

/-- C1 (counterexample to the claim as stated): the claim's well-formedness
(depot demand `0`, customer demands non-negative — here there are no
customers) does not constrain vehicle capacities, and with one vehicle of
capacity `-1` the returned route `[depot]` has cumulative non-depot demand
`0 > -1`. -/
theorem solveVRPTW_capacity_cex :
    cexDepot.demand = 0 ∧
    (solveVRPTW cd0 cexDepot [] [cexVehicle] tmZero).map (fun sol =>
      sol.routes.all (fun r =>
        match [cexVehicle].find? (fun x => x.id == r.vehicleId) with
        | some v => decide (demandExcl cexDepot r ≤ v.capacity)
        | none => true)) = some false :=
  ⟨rfl, by decide⟩

/-- Witness depot for positive runs. -/
def wDepot : Location := ⟨"d", "D", 0, 0, 0, 0, 100, 0⟩

/-- Witness customer. -/
def wCust : Location := ⟨"c", "C", 0, 0, 1, 0, 100, 0⟩

/-- Witness vehicle. -/
def wVehicle : Vehicle := ⟨"v", 10, wDepot, wDepot, ""⟩

/-- The solution returned on the witness input: the customer is spliced into
the single route, which is then closed at the depot. -/
def wSol : VRPTWSolution :=
  ⟨[⟨"v", [wDepot, wCust, wDepot], 0, 0, true, ""⟩], [], 0, 0, true, []⟩

/-- Witness for the amended capacity theorem at a concrete feasible input. -/
theorem solveVRPTW_capacity_witness :
    solveVRPTW cd0 wDepot [wCust] [wVehicle] tmZero = some wSol ∧
      ∀ r ∈ wSol.routes, ∀ v, [wVehicle].find? (fun x => x.id == r.vehicleId) = some v →
        demandExcl wDepot r ≤ v.capacity :=
  ⟨by decide, solveVRPTW_capacity cd0 wDepot [wCust] [wVehicle] tmZero wSol
    rfl (by decide) (by decide) (by decide)⟩

/-- Witness for the feasible-flag theorem at a concrete input. -/
theorem solveVRPTW_feasible_flags_witness :
    solveVRPTW cd0 wDepot [wCust] [wVehicle] tmZero = some wSol ∧
    ((∀ st c st', (∀ r ∈ st.routes, r.feasible = true) →
        assignCustomer cd0 wDepot [wCust] tmZero [wVehicle] st c = some st' →
        ∀ r ∈ st'.routes, r.feasible = true) ∧
      (∀ r ∈ wSol.routes, r.feasible = true) ∧
      wSol.feasible = wSol.unassignedLocations.isEmpty) :=
  ⟨by decide, solveVRPTW_feasible_flags cd0 wDepot [wCust] [wVehicle] tmZero wSol (by decide)⟩

/-- Witness for the distance-sum theorem at a concrete input. -/
theorem solveVRPTW_distance_sums_witness :
    solveVRPTW cd0 wDepot [wCust] [wVehicle] tmZero = some wSol ∧
    (wSol.totalDistance = (wSol.routes.map (fun r => r.totalDistance)).sum ∧
      ∀ r ∈ wSol.routes, r.totalDistance = pathDistance cd0 r.locations) :=
  ⟨by decide, solveVRPTW_distance_sums cd0 wDepot [wCust] [wVehicle] tmZero wSol (by decide)⟩

/-- Witness for the depot-endpoint theorem at a concrete input. -/
theorem solveVRPTW_depot_endpoints_witness :
    solveVRPTW cd0 wDepot [wCust] [wVehicle] tmZero = some wSol ∧
    ∀ r ∈ wSol.routes, r.locations.head? = some wDepot ∧ r.locations.getLast? = some wDepot :=
  ⟨by decide, solveVRPTW_depot_endpoints cd0 wDepot [wCust] [wVehicle] tmZero wSol
    (by decide) (by decide)⟩

/-- C2 (amended): a customer is appended to `unassignedLocations` at its
processing step exactly when every slot of the then-current routes passing
all three feasibility checks has insertion cost at least `Number.MAX_VALUE`
(in particular, whenever no slot passes the checks at all). -/
theorem assignCustomer_unassigned_iff (cd : ℚ → ℚ → ℚ → ℚ → ℚ) (depot : Location)
    (customers : List Location) (tm : ℕ → ℕ → ℚ) (vehicles : List Vehicle)
    (st : SolveState) (c : Location) (st' : SolveState)
    (h : assignCustomer cd depot customers tm vehicles st c = some st') :
    st'.unassigned = st.unassigned ++ [c] ↔
      ∀ s ∈ feasSlots depot customers tm vehicles c st.routes 0, MAX_VALUE ≤ s.2.2 := by
  rcases assignCustomer_cases cd depot customers tm vehicles st c st' h with
    ⟨routes1, -, hall, rfl⟩ |
    ⟨routes1, k, i, inc, route, l₁, l₂, -, hsplit, hlt, -, -, -, -, -, -, -, -, rfl⟩
  · exact ⟨fun _ => hall, fun _ => rfl⟩
  · constructor
    · intro habs
      exfalso
      have : st.unassigned.length = (st.unassigned ++ [c]).length := congrArg List.length habs
      simp at this
    · intro hall
      exfalso
      have hmem : (k, i + 1, inc) ∈ feasSlots depot customers tm vehicles c st.routes 0 :=
        hsplit ▸ List.mem_append_right l₁ (List.mem_cons_self _ _)
      have := hall _ hmem
      simp only at this
      linarith

/-- Depot of the fixed-point counterexample. -/
def c2depot : Location := ⟨"dep", "Dep", 0, 0, 0, 0, 0, 0⟩

/-- The customer the solver leaves unassigned although the final routes
admit a feasible slot for it. -/
def c2c : Location := ⟨"c", "C", 0, 0, 1, 0, 50, 0⟩

/-- The customer inserted after `c2c` was rejected, which opens a slot. -/
def c2d : Location := ⟨"d", "Dd", 0, 0, 1, 1, 100, 0⟩

/-- Vehicle of the fixed-point counterexample. -/
def c2veh : Vehicle := ⟨"v", 100, c2depot, c2depot, ""⟩

/-- Time matrix of the fixed-point counterexample (indices: c2c = 0,
c2d = 1, depot = 2): the depot is far from `c2c` but `c2d` is close to it. -/
def c2tm : ℕ → ℕ → ℚ := fun i j =>
  if i = 2 ∧ j = 0 then 100 else if i = 0 ∧ j = 2 then 5
  else if i = 2 ∧ j = 1 then 10 else if i = 1 ∧ j = 2 then 10
  else if i = 1 ∧ j = 0 then 1 else 0

/-- C2 (counterexample to the claim as stated): on a well-formed input the
returned solution leaves `c2c` unassigned although route 0 of the returned
solution admits a slot (after position 1) passing all three feasibility
checks — the result is not a fixed point of the insertion pass. -/
theorem solveVRPTW_fixedpoint_cex :
    (c2depot.demand = 0 ∧ 0 ≤ c2c.demand ∧ 0 ≤ c2d.demand) ∧
    (solveVRPTW cd0 c2depot [c2c, c2d] [c2veh] c2tm).map (fun sol =>
      decide (c2c ∈ sol.unassignedLocations) &&
        insertionFeasible c2depot [c2c, c2d] c2tm [c2veh] sol.routes c2c 0 1) = some true :=
  ⟨⟨rfl, by decide, by decide⟩, by decide⟩

/-- The state before the witness customer is processed. -/
def wState : SolveState := ⟨initRoutes wDepot [wVehicle], [], []⟩

/-- The state after the witness customer is spliced into the route. -/
def wStateIns : SolveState := ⟨[⟨"v", [wDepot, wCust], 0, 0, true, ""⟩], [], []⟩

/-- Witness for the amended unassignment criterion at a concrete step. -/
theorem assignCustomer_unassigned_iff_witness :
    assignCustomer cd0 wDepot [wCust] tmZero [wVehicle] wState wCust = some wStateIns ∧
    (wStateIns.unassigned = wState.unassigned ++ [wCust] ↔
      ∀ s ∈ feasSlots wDepot [wCust] tmZero [wVehicle] wCust wState.routes 0,
        MAX_VALUE ≤ s.2.2) :=
  ⟨by decide, assignCustomer_unassigned_iff cd0 wDepot [wCust] tmZero [wVehicle]
    wState wCust wStateIns (by decide)⟩

/-- Depot of the missing-reason example. -/
def c6depot : Location := ⟨"dep", "Dep", 0, 0, 0, 0, 0, 0⟩

/-- Customer of the missing-reason example. -/
def c6c : Location := ⟨"c", "C", 0, 0, 1, 0, 100, 0⟩

/-- Vehicle of the missing-reason example. -/
def c6veh : Vehicle := ⟨"v", 10, c6depot, c6depot, ""⟩

/-- Time matrix of the missing-reason example (indices: c6c = 0, depot = 1):
the return leg `c6c → depot` costs exactly `Number.MAX_VALUE` minutes, so the
slot passes every feasibility check but its insertion cost is not strictly
below the `bestIncrease` sentinel. -/
def c6tm : ℕ → ℕ → ℚ := fun i j => if i = 0 ∧ j = 1 then MAX_VALUE else 0

/-- C6: when a customer finds no slot it is pushed to `unassignedLocations`,
and a reason is appended to `infeasibilityReasons` exactly when additionally
no route reported potential feasibility; consequently on some input the
returned reason list is strictly shorter than the unassigned list. -/
theorem solveVRPTW_reason_logging :
    (∀ (cd : ℚ → ℚ → ℚ → ℚ → ℚ) (depot : Location) (customers : List Location)
      (tm : ℕ → ℕ → ℚ) (vehicles : List Vehicle) (st : SolveState) (c : Location)
      (st' : SolveState),
      assignCustomer cd depot customers tm vehicles st c = some st' →
      (st'.reasons = st.reasons ∨ st'.reasons = st.reasons ++ [noAssignMsg c]) ∧
      (st'.reasons = st.reasons ++ [noAssignMsg c] ↔
        st'.unassigned = st.unassigned ++ [c] ∧
        feasSlots depot customers tm vehicles c st.routes 0 = [])) ∧
    (solveVRPTW cd0 c6depot [c6c] [c6veh] c6tm).map (fun sol =>
      decide (sol.infeasibilityReasons.length < sol.unassignedLocations.length)) =
      some true := by
  constructor
  · intro cd depot customers tm vehicles st c st' h
    rcases assignCustomer_cases cd depot customers tm vehicles st c st' h with
      ⟨routes1, -, -, rfl⟩ |
      ⟨routes1, k, i, inc, route, l₁, l₂, -, hsplit, -, -, -, -, -, -, -, -, -, rfl⟩
    · cases hemp : (feasSlots depot customers tm vehicles c st.routes 0).isEmpty with
      | true =>
        have hnil : feasSlots depot customers tm vehicles c st.routes 0 = [] :=
          List.isEmpty_iff.mp hemp
        simp [hemp, hnil]
      | false =>
        have hne : feasSlots depot customers tm vehicles c st.routes 0 ≠ [] := by
          intro hx
          rw [hx] at hemp
          simp at hemp
        simp [hemp, hne]
    · simp
  · decide

/-- Witness for the reason-logging step discipline at a concrete step. -/
theorem solveVRPTW_reason_logging_witness :
    assignCustomer cd0 wDepot [wCust] tmZero [wVehicle] wState wCust = some wStateIns ∧
    ((wStateIns.reasons = wState.reasons ∨
        wStateIns.reasons = wState.reasons ++ [noAssignMsg wCust]) ∧
      (wStateIns.reasons = wState.reasons ++ [noAssignMsg wCust] ↔
        wStateIns.unassigned = wState.unassigned ++ [wCust] ∧
        feasSlots wDepot [wCust] tmZero [wVehicle] wCust wState.routes 0 = [])) :=
  ⟨by decide, solveVRPTW_reason_logging.1 cd0 wDepot [wCust] tmZero [wVehicle]
    wState wCust wStateIns (by decide)⟩

/-- C8: a customer that gets assigned is spliced at a slot of minimal
insertion cost among all feasible slots, and among equal-cost slots the first
in iteration order wins: every earlier slot costs strictly more, every slot
costs at least as much. -/
theorem assignCustomer_greedy_choice (cd : ℚ → ℚ → ℚ → ℚ → ℚ) (depot : Location)
    (customers : List Location) (tm : ℕ → ℕ → ℚ) (vehicles : List Vehicle)
    (st : SolveState) (c : Location) (st' : SolveState)
    (h : assignCustomer cd depot customers tm vehicles st c = some st') :
    st'.unassigned = st.unassigned ++ [c] ∨
    ∃ (routes1 : List Route) (k i : ℕ) (inc : ℚ) (route : Route)
      (l₁ l₂ : List (ℕ × ℕ × ℚ)),
      feasSlots depot customers tm vehicles c st.routes 0 = l₁ ++ (k, i + 1, inc) :: l₂ ∧
      (∀ t ∈ l₁, inc < t.2.2) ∧
      (∀ t ∈ feasSlots depot customers tm vehicles c st.routes 0, inc ≤ t.2.2) ∧
      routes1.map stripReason = st.routes.map stripReason ∧
      routes1[k]? = some route ∧
      inc = slotIncrease depot customers tm c route.locations i ∧
      st' = { routes := routes1.set k { route with
                locations := List.insertIdx (i + 1) c route.locations,
                totalTime := route.totalTime + inc,
                totalDistance := pathDistance cd (List.insertIdx (i + 1) c route.locations) },
              unassigned := st.unassigned, reasons := st.reasons } := by
  rcases assignCustomer_cases cd depot customers tm vehicles st c st' h with
    ⟨routes1, -, -, rfl⟩ |
    ⟨routes1, k, i, inc, route, l₁, l₂, hstrip, hsplit, -, hbef, hmin, hget1, -, -, -, -,
      hinc, rfl⟩
  · exact Or.inl rfl
  · exact Or.inr ⟨routes1, k, i, inc, route, l₁, l₂, hsplit, hbef, hmin, hstrip, hget1,
      hinc, rfl⟩

/-- Witness for the greedy-choice theorem at a concrete step. -/
theorem assignCustomer_greedy_choice_witness :
    assignCustomer cd0 wDepot [wCust] tmZero [wVehicle] wState wCust = some wStateIns ∧
    (wStateIns.unassigned = wState.unassigned ++ [wCust] ∨
    ∃ (routes1 : List Route) (k i : ℕ) (inc : ℚ) (route : Route)
      (l₁ l₂ : List (ℕ × ℕ × ℚ)),
      feasSlots wDepot [wCust] tmZero [wVehicle] wCust wState.routes 0 =
        l₁ ++ (k, i + 1, inc) :: l₂ ∧
      (∀ t ∈ l₁, inc < t.2.2) ∧
      (∀ t ∈ feasSlots wDepot [wCust] tmZero [wVehicle] wCust wState.routes 0,
        inc ≤ t.2.2) ∧
      routes1.map stripReason = wState.routes.map stripReason ∧
      routes1[k]? = some route ∧
      inc = slotIncrease wDepot [wCust] tmZero wCust route.locations i ∧
      wStateIns = { routes := routes1.set k { route with
                      locations := List.insertIdx (i + 1) wCust route.locations,
                      totalTime := route.totalTime + inc,
                      totalDistance :=
                        pathDistance cd0 (List.insertIdx (i + 1) wCust route.locations) },
                    unassigned := wState.unassigned, reasons := wState.reasons }) :=
  ⟨by decide, assignCustomer_greedy_choice cd0 wDepot [wCust] tmZero [wVehicle]
    wState wCust wStateIns (by decide)⟩

/-- Route maps that ignore the rejection reason transfer along
reason-forgetting equality. -/
theorem map_eq_of_strip_eq {β : Type} (f : Route → β) (hf : ∀ r, f (stripReason r) = f r)
    {l₁ l₂ : List Route} (h : l₁.map stripReason = l₂.map stripReason) :
    l₁.map f = l₂.map f := by
  have h1 : ∀ l : List Route, l.map f = (l.map stripReason).map f := by
    intro l
    rw [List.map_map]
    exact (List.map_congr_left (fun r _ => (hf r).symm))
  rw [h1 l₁, h1 l₂, h]

/-- An indexed element splits the list, and `set` replaces it in place. -/
theorem getElem?_set_decomp {α : Type} :
    ∀ (l : List α) (k : ℕ) (a b : α), l[k]? = some a →
      ∃ t₁ t₂, l = t₁ ++ a :: t₂ ∧ t₁.length = k ∧ l.set k b = t₁ ++ b :: t₂
  | [], k, a, b, h => by simp at h
  | x :: xs, 0, a, b, h => by
    obtain rfl : x = a := Option.some.inj (by simpa using h)
    exact ⟨[], xs, rfl, rfl, rfl⟩
  | x :: xs, k + 1, a, b, h => by
    obtain ⟨t₁, t₂, h1, h2, h3⟩ := getElem?_set_decomp xs k a b (by simpa using h)
    refine ⟨x :: t₁, t₂, by rw [h1]; rfl, by simp [h2], ?_⟩
    show x :: xs.set k b = x :: t₁ ++ b :: t₂
    rw [h3]
    rfl

/-- Mapping after `set` with an element mapped equally is mapping the
original list. -/
theorem map_set_of_getElem? {α β : Type} (l : List α) (k : ℕ) (a a' : α) (f : α → β)
    (hget : l[k]? = some a) (hf : f a' = f a) : (l.set k a').map f = l.map f := by
  obtain ⟨t₁, t₂, rfl, -, hset⟩ := getElem?_set_decomp l k a a' hget
  rw [hset]
  simp [hf]

/-- The multiset of non-depot locations carried by a state: contents of the
routes (depot occurrences excluded by id) plus unassigned customers. -/
def contentM (depot : Location) (st : SolveState) : Multiset Location :=
  (st.routes.map (fun r =>
    ((r.locations.filter (fun l => !(l.id == depot.id)) : List Location) : Multiset Location))).sum
    + (st.unassigned : Multiset Location)

/-- One customer step adds exactly the processed customer to the state's
location content. -/
theorem assignCustomer_content (cd : ℚ → ℚ → ℚ → ℚ → ℚ) (depot : Location)
    (customers : List Location) (tm : ℕ → ℕ → ℚ) (vehicles : List Vehicle)
    (st : SolveState) (c : Location) (st' : SolveState) (hc : c.id ≠ depot.id)
    (h : assignCustomer cd depot customers tm vehicles st c = some st') :
    contentM depot st' = c ::ₘ contentM depot st := by
  have hf : ∀ r : Route, (((stripReason r).locations.filter
      (fun l => !(l.id == depot.id)) : List Location) : Multiset Location) =
      ((r.locations.filter (fun l => !(l.id == depot.id)) : List Location) : Multiset Location) :=
    fun r => rfl
  rcases assignCustomer_cases cd depot customers tm vehicles st c st' h with
    ⟨routes1, hstrip, -, rfl⟩ |
    ⟨routes1, k, i, inc, route, l₁, l₂, hstrip, -, -, -, -, hget1, -, hilen, -, -, -, rfl⟩
  · unfold contentM
    dsimp only
    rw [map_eq_of_strip_eq _ hf hstrip]
    have : ((st.unassigned ++ [c] : List Location) : Multiset Location) =
        (st.unassigned : Multiset Location) + {c} := rfl
    rw [this, show ({c} : Multiset Location) = c ::ₘ (0 : Multiset Location) from rfl,
      Multiset.add_cons, add_zero, Multiset.add_cons]
  · obtain ⟨t₁, t₂, hdec, -, hset⟩ := getElem?_set_decomp routes1 k route _ hget1
    unfold contentM
    dsimp only
    rw [hset, List.map_append, List.map_cons, List.sum_append, List.sum_cons]
    have hroute' : ((List.filter (fun l => !(l.id == depot.id))
        (List.insertIdx (i + 1) c route.locations) : List Location) : Multiset Location) =
        c ::ₘ ((route.locations.filter (fun l => !(l.id == depot.id)) : List Location) :
          Multiset Location) := by
      have hperm : List.Perm (List.insertIdx (i + 1) c route.locations)
          (c :: route.locations) :=
        List.perm_insertIdx c route.locations (by omega)
      have hpf := hperm.filter (fun l => !(l.id == depot.id))
      rw [Multiset.coe_eq_coe.mpr hpf]
      simp [List.filter_cons, hc, Multiset.cons_coe]
    rw [hroute']
    have hsum1 : (routes1.map (fun r =>
        ((r.locations.filter (fun l => !(l.id == depot.id)) : List Location) :
          Multiset Location))).sum =
        (st.routes.map (fun r =>
        ((r.locations.filter (fun l => !(l.id == depot.id)) : List Location) :
          Multiset Location))).sum := by
      rw [map_eq_of_strip_eq _ hf hstrip]
    rw [← hsum1, hdec, List.map_append, List.map_cons, List.sum_append, List.sum_cons]
    simp only [← Multiset.singleton_add]
    abel

/-- The customer loop adds exactly the processed customers to the content. -/
theorem solveLoop_content (cd : ℚ → ℚ → ℚ → ℚ → ℚ) (depot : Location)
    (customers : List Location) (tm : ℕ → ℕ → ℚ) (vehicles : List Vehicle) :
    ∀ (cs : List Location), (∀ x ∈ cs, x.id ≠ depot.id) →
      ∀ (st st' : SolveState), solveLoop cd depot customers tm vehicles cs st = some st' →
      contentM depot st' = contentM depot st + (cs : Multiset Location)
  | [], _, st, st', h => by
    rw [solveLoop] at h
    obtain rfl := Option.some.inj h
    simp
  | c :: cs, hmem, st, st', h => by
    rw [solveLoop] at h
    cases ha : assignCustomer cd depot customers tm vehicles st c with
    | none => rw [ha] at h; exact absurd h (by simp)
    | some st1 =>
      rw [ha] at h
      have h1 := assignCustomer_content cd depot customers tm vehicles st c st1
        (hmem c (List.mem_cons_self _ _)) ha
      have h2 := solveLoop_content cd depot customers tm vehicles cs
        (fun x hx => hmem x (List.mem_cons_of_mem _ hx)) st1 st' h
      rw [h2, h1, Multiset.cons_add,
        show ((c :: cs : List Location) : Multiset Location) = c ::ₘ (cs : Multiset Location)
          from rfl,
        Multiset.add_cons]

/-- One customer step does not change the routes' vehicle ids. -/
theorem assignCustomer_vehicleIds (cd : ℚ → ℚ → ℚ → ℚ → ℚ) (depot : Location)
    (customers : List Location) (tm : ℕ → ℕ → ℚ) (vehicles : List Vehicle)
    (st : SolveState) (c : Location) (st' : SolveState)
    (h : assignCustomer cd depot customers tm vehicles st c = some st') :
    st'.routes.map (fun r => r.vehicleId) = st.routes.map (fun r => r.vehicleId) := by
  rcases assignCustomer_cases cd depot customers tm vehicles st c st' h with
    ⟨routes1, hstrip, -, rfl⟩ |
    ⟨routes1, k, i, inc, route, l₁, l₂, hstrip, -, -, -, -, hget1, -, -, -, -, -, rfl⟩
  · exact map_eq_of_strip_eq (fun r => r.vehicleId) (fun r => rfl) hstrip
  · dsimp only
    rw [map_set_of_getElem? routes1 k route
      { route with
          locations := List.insertIdx (i + 1) c route.locations,
          totalTime := route.totalTime + inc,
          totalDistance := pathDistance cd (List.insertIdx (i + 1) c route.locations) }
      (fun r => r.vehicleId) hget1 rfl]
    exact map_eq_of_strip_eq (fun r => r.vehicleId) (fun r => rfl) hstrip

/-- Closing a route at the depot keeps its vehicle id. -/
theorem closeRoute_vehicleId (cd : ℚ → ℚ → ℚ → ℚ → ℚ) (depot : Location) (r : Route) :
    (closeRoute cd depot r).vehicleId = r.vehicleId := by
  unfold closeRoute
  split <;> rfl

/-- Closing a route at the depot does not change its non-depot locations. -/
theorem closeRoute_filter (cd : ℚ → ℚ → ℚ → ℚ → ℚ) (depot : Location) (r : Route) :
    (closeRoute cd depot r).locations.filter (fun l => !(l.id == depot.id)) =
      r.locations.filter (fun l => !(l.id == depot.id)) := by
  unfold closeRoute
  split
  · show (r.locations ++ [depot]).filter (fun l => !(l.id == depot.id)) = _
    rw [List.filter_append]
    simp
  · rfl

/-- The multiset of a flattened list of lists is the sum of the multisets. -/
theorem coe_flatten_sum {α : Type} : ∀ (L : List (List α)),
    ((L.flatten : List α) : Multiset α) = (L.map Multiset.ofList).sum
  | [] => rfl
  | l :: L => by
    show ((l ++ L.flatten : List α) : Multiset α) = _
    rw [show ((l ++ L.flatten : List α) : Multiset α) =
      Multiset.ofList l + ((L.flatten : List α) : Multiset α) from rfl, coe_flatten_sum L]
    simp

/-- C10: the solution has exactly one route per vehicle, in input order, and
the non-depot locations of the routes together with the unassigned customers
are a permutation of the input customers: each customer is placed exactly
once or unassigned, never both, never duplicated. -/
theorem solveVRPTW_partition (cd : ℚ → ℚ → ℚ → ℚ → ℚ) (depot : Location)
    (customers : List Location) (vehicles : List Vehicle) (tm : ℕ → ℕ → ℚ)
    (sol : VRPTWSolution) (hids : ∀ c ∈ customers, c.id ≠ depot.id)
    (h : solveVRPTW cd depot customers vehicles tm = some sol) :
    sol.routes.length = vehicles.length ∧
    sol.routes.map (fun r => r.vehicleId) = vehicles.map (fun v => v.id) ∧
    List.Perm ((sol.routes.map (fun r =>
        r.locations.filter (fun l => !(l.id == depot.id)))).flatten ++ sol.unassignedLocations)
      customers := by
  obtain ⟨st, hloop, rfl⟩ := solveVRPTW_eq_some cd depot customers vehicles tm sol h
  have hvid : st.routes.map (fun r => r.vehicleId) = vehicles.map (fun v => v.id) := by
    refine solveLoop_inv cd depot customers tm vehicles
      (fun s => s.routes.map (fun r => r.vehicleId) = vehicles.map (fun v => v.id))
      (fun s c s' _ hstep hp =>
        (assignCustomer_vehicleIds cd depot customers tm vehicles s c s' hstep).trans hp)
      _ (fun x hx => List.mem_insertionSort _ |>.mp hx) _ st hloop ?_
    show (initRoutes depot vehicles).map (fun r => r.vehicleId) = vehicles.map (fun v => v.id)
    unfold initRoutes
    rw [List.map_map]
    rfl
  have hvid2 : (st.routes.map (closeRoute cd depot)).map (fun r => r.vehicleId) =
      vehicles.map (fun v => v.id) := by
    rw [List.map_map]
    have hcomp : ((fun r => r.vehicleId) ∘ closeRoute cd depot) =
        (fun r : Route => r.vehicleId) :=
      funext (fun r => closeRoute_vehicleId cd depot r)
    rw [hcomp, hvid]
  refine ⟨?_, hvid2, ?_⟩
  · have := congrArg List.length hvid2
    simpa using this
  · have hcontent := solveLoop_content cd depot customers tm vehicles
      (customers.insertionSort (fun a b => a.readyTime ≤ b.readyTime))
      (fun x hx => hids x (List.mem_insertionSort _ |>.mp hx))
      ⟨initRoutes depot vehicles, [], []⟩ st hloop
    have hinit : contentM depot ⟨initRoutes depot vehicles, [], []⟩ = 0 := by
      unfold contentM initRoutes
      dsimp only
      rw [List.map_map]
      have : ((fun r : Route =>
          ((r.locations.filter (fun l => !(l.id == depot.id)) : List Location) :
            Multiset Location)) ∘ (fun vehicle : Vehicle =>
          { vehicleId := vehicle.id, locations := [depot], totalDistance := 0,
            totalTime := 0, feasible := true, infeasibilityReason := "" : Route })) =
          (fun _ : Vehicle => (0 : Multiset Location)) := by
        funext v
        show ((([depot].filter (fun l => !(l.id == depot.id)) : List Location)) :
          Multiset Location) = 0
        simp
      rw [this]
      simp
    rw [hinit, zero_add] at hcontent
    rw [← Multiset.coe_eq_coe]
    show ((((st.routes.map (closeRoute cd depot)).map (fun r =>
        r.locations.filter (fun l => !(l.id == depot.id)))).flatten ++ st.unassigned :
          List Location) : Multiset Location) = (customers : Multiset Location)
    have hmaps : (st.routes.map (closeRoute cd depot)).map (fun r =>
        r.locations.filter (fun l => !(l.id == depot.id))) =
        st.routes.map (fun r => r.locations.filter (fun l => !(l.id == depot.id))) := by
      rw [List.map_map]
      exact List.map_congr_left (fun r _ => closeRoute_filter cd depot r)
    rw [show ((((st.routes.map (closeRoute cd depot)).map (fun r =>
        r.locations.filter (fun l => !(l.id == depot.id)))).flatten ++ st.unassigned :
          List Location) : Multiset Location) =
        ((((st.routes.map (closeRoute cd depot)).map (fun r =>
        r.locations.filter (fun l => !(l.id == depot.id)))).flatten : List Location) :
          Multiset Location) + (st.unassigned : Multiset Location) from rfl]
    rw [hmaps, coe_flatten_sum, List.map_map]
    show contentM depot st = (customers : Multiset Location)
    rw [hcontent]
    exact Multiset.coe_eq_coe.mpr (List.perm_insertionSort _ customers)

/-- Witness for the partition theorem at a concrete input. -/
theorem solveVRPTW_partition_witness :
    solveVRPTW cd0 wDepot [wCust] [wVehicle] tmZero = some wSol ∧
    (wSol.routes.length = ([wVehicle] : List Vehicle).length ∧
      wSol.routes.map (fun r => r.vehicleId) = [wVehicle].map (fun v => v.id) ∧
      List.Perm ((wSol.routes.map (fun r =>
          r.locations.filter (fun l => !(l.id == wDepot.id)))).flatten ++
        wSol.unassignedLocations) [wCust]) :=
  ⟨by decide, solveVRPTW_partition cd0 wDepot [wCust] [wVehicle] tmZero wSol
    (by decide) (by decide)⟩

/-! ### The time matrix (claim C7) -/

/-- The Haversine intermediate value is symmetric in its two points:
`sin` of a negated half-angle squares to the same value, and the two
cosine factors commute. -/
theorem haverA_comm (lat1 lon1 lat2 lon2 : ℝ) :
    haverA lat1 lon1 lat2 lon2 = haverA lat2 lon2 lat1 lon1 := by
  unfold haverA
  have h1 : ∀ x y : ℝ,
      Real.sin ((x - y) * Real.pi / 180 / 2) * Real.sin ((x - y) * Real.pi / 180 / 2) =
      Real.sin ((y - x) * Real.pi / 180 / 2) * Real.sin ((y - x) * Real.pi / 180 / 2) := by
    intro x y
    have hx : (x - y) * Real.pi / 180 / 2 = -((y - x) * Real.pi / 180 / 2) := by ring
    rw [hx, Real.sin_neg]
    ring
  rw [h1 lat2 lat1, h1 lon2 lon1]
  ring

/-- The great-circle distance is symmetric in its two points. -/
theorem calculateDistance_comm (lat1 lon1 lat2 lon2 : ℝ) :
    calculateDistance lat1 lon1 lat2 lon2 = calculateDistance lat2 lon2 lat1 lon1 := by
  unfold calculateDistance
  rw [haverA_comm]

/-- Row `i` of the generated matrix, for an in-range index. -/
theorem generateTimeMatrix_row (locations : List Location) (i : ℕ)
    (hi : i < locations.length) :
    (generateTimeMatrix locations).getD i [] =
      locations.enum.map (fun q =>
        if i = q.1 then 0 else
          round (calculateDistance (locations[i].lat : ℝ) (locations[i].lng : ℝ)
            (q.2.lat : ℝ) (q.2.lng : ℝ) / 50 * 60)) := by
  unfold generateTimeMatrix
  rw [List.getD_eq_getElem?_getD, List.getElem?_map, List.getElem?_enum,
    List.getElem?_eq_getElem hi]
  rfl

/-- Entry `(i, j)` of the generated matrix, for in-range indices. -/
theorem generateTimeMatrix_entry (locations : List Location) (i j : ℕ)
    (hi : i < locations.length) (hj : j < locations.length) :
    ((generateTimeMatrix locations).getD i []).getD j 0 =
      (if i = j then 0 else
        round (calculateDistance (locations[i].lat : ℝ) (locations[i].lng : ℝ)
          (locations[j].lat : ℝ) (locations[j].lng : ℝ) / 50 * 60)) := by
  rw [generateTimeMatrix_row locations i hi, List.getD_eq_getElem?_getD,
    List.getElem?_map, List.getElem?_enum, List.getElem?_eq_getElem hj]
  rfl

/-- C7: `generateTimeMatrix` returns a square matrix whose entry `(i, j)` is
`0` when `i = j` and otherwise `round(calculateDistance(location i,
location j) / 50 × 60)`, and the matrix is symmetric: entry `(i, j)` equals
entry `(j, i)` for every index pair. -/
theorem generateTimeMatrix_spec (locations : List Location) :
    (generateTimeMatrix locations).length = locations.length ∧
    (∀ k : Fin (generateTimeMatrix locations).length,
      ((generateTimeMatrix locations).get k).length = locations.length) ∧
    (∀ i j : Fin locations.length,
      ((generateTimeMatrix locations).getD i []).getD j 0 =
        (if (i : ℕ) = (j : ℕ) then 0 else
          round (calculateDistance (locations[i].lat : ℝ) (locations[i].lng : ℝ)
            (locations[j].lat : ℝ) (locations[j].lng : ℝ) / 50 * 60)) ∧
      ((generateTimeMatrix locations).getD i []).getD j 0 =
        ((generateTimeMatrix locations).getD j []).getD i 0) := by
  refine ⟨?_, ?_, ?_⟩
  · unfold generateTimeMatrix
    rw [List.length_map, List.enum_length]
  · intro k
    rw [List.get_eq_getElem]
    have hk := k.isLt
    unfold generateTimeMatrix at hk ⊢
    rw [List.getElem_map, List.length_map, List.enum_length]
  · intro i j
    constructor
    · exact generateTimeMatrix_entry locations i j i.isLt j.isLt
    · rw [generateTimeMatrix_entry locations i j i.isLt j.isLt,
        generateTimeMatrix_entry locations j i j.isLt i.isLt]
      by_cases hij : (i : ℕ) = (j : ℕ)
      · rw [if_pos hij, if_pos hij.symm]
      · rw [if_neg hij, if_neg (fun h => hij h.symm), calculateDistance_comm]

end VRPTW
